import Mathlib

/-!
Verification of the component contribution and aggregation protocol of the
pandapipes repository (files `component_models/ext_grid_component.py` and
`component_models/compressor_component.py`), as a shallow embedding.

Internal tables are embedded as functions from row indices to row records
(node table, result table) or as lists of row records (branch table, element
configuration tables); the numeric cells of the tables are embedded as exact
rationals.  Vectorized numpy operations on table slices become explicit maps,
filters and scatter folds, keeping numpy's semantics for fancy indexing
(later duplicate indices win, `a[idx] += v` gathers from the pre-assignment
array).  Fallible operations (junction-index lookups, shape-checked
element-wise division) return `Option`.
-/

set_option maxHeartbeats 1000000
set_option linter.unusedVariables false

namespace Pandapipes

/-! ## Generic list helpers (embedding of the numpy primitives used) -/

/-- Embedding of numpy fancy *gather* indexing `vals[idxs]` on a 1-d array. -/
def gather (vals : List α) (d : α) (idxs : List Nat) : List α :=
  idxs.map (fun i => vals.getD i d)

/-- Embedding of `np.where(cond(arr))` for a 1-d array: the ascending list of
positions of `l` whose element satisfies `p`. -/
def wherePositions (p : α → Bool) : List α → List Nat
  | [] => []
  | a :: l =>
    if p a then 0 :: (wherePositions p l).map (· + 1)
    else (wherePositions p l).map (· + 1)

/-- Embedding of a numpy fancy-index column assignment `tab[idxs, col] = vals`
on a table embedded as a function from row index to row: the pairs are
processed left to right, so for duplicate indices the last value wins, exactly
as numpy scatters. `f row v` writes value `v` into the column of `row`. -/
def scatterCol (f : α → ℚ → α) : (Nat → α) → List (Nat × ℚ) → (Nat → α)
  | tab, [] => tab
  | tab, iv :: l => scatterCol f (Function.update tab iv.1 (f (tab iv.1) iv.2)) l

/-- Embedding of a numpy broadcast column assignment `tab[idxs, col] = c` with
a scalar right-hand side: `f row` writes the constant into the column. -/
def scatterConst (f : α → α) : (Nat → α) → List Nat → (Nat → α)
  | tab, [] => tab
  | tab, i :: l => scatterConst f (Function.update tab i (f (tab i))) l

/-- Embedding of a numpy boolean-mask assignment `arr[mask] = vals` on an
array embedded as a function from position to value: position `i` with
`mask[i]` true receives the element of `vals` whose position equals the number
of true mask entries before `i`. -/
def maskAssign (res : Nat → ℚ) (mask : List Bool) (vals : List ℚ) : Nat → ℚ :=
  fun i =>
    if mask.getD i false then vals.getD ((mask.take i).count true) (res i)
    else res i

/-- First position of `m` in `l` (`np.unique`'s inverse indices are positions
into the sorted unique array). -/
def idxOfN (m : Nat) : List Nat → Nat
  | [] => 0
  | a :: l => if a = m then 0 else idxOfN m l + 1

/-- Number of occurrences of `m` in `l`. -/
def cntN (m : Nat) : List Nat → Nat
  | [] => 0
  | a :: l => (if a = m then 1 else 0) + cntN m l

/-- Embedding of indexing a bounded index array with an integer array
(`lookup_array[keys]`): every key must be inside the lookup's domain,
otherwise the whole operation fails (numpy raises `IndexError`). -/
def lookupList (lookup : Nat → Option Nat) : List Nat → Option (List Nat)
  | [] => some []
  | k :: ks =>
    match lookup k, lookupList lookup ks with
    | some n, some ns => some (n :: ns)
    | _, _ => none

/-! ## Sorted unique keys -/

/-- Insert a key into an ascending duplicate-free list, keeping it ascending
and duplicate-free. -/
def insertSorted (a : Nat) : List Nat → List Nat
  | [] => [a]
  | b :: l =>
    if a < b then a :: b :: l
    else if a = b then b :: l
    else b :: insertSorted a l

/-- The ascending list of the distinct values of `l` (the key output of
`np.unique` and of the grouped aggregation primitive). -/
def sortedUnique (l : List Nat) : List Nat := l.foldr insertSorted []

theorem get?_map_opt (f : α → β) (l : List α) (i : Nat) :
    (l.map f).get? i = (l.get? i).map f := by
  induction l generalizing i with
  | nil => cases i <;> rfl
  | cons a l ih =>
    cases i with
    | zero => rfl
    | succ i => exact ih i

theorem mem_insertSorted {a b : Nat} {l : List Nat} :
    b ∈ insertSorted a l ↔ b = a ∨ b ∈ l := by
  induction l with
  | nil => simp [insertSorted]
  | cons c l ih =>
    by_cases h1 : a < c
    · simp [insertSorted, h1]
    · by_cases h2 : a = c
      · subst h2
        rw [insertSorted, if_neg h1, if_pos rfl]
        simp only [List.mem_cons]
        tauto
      · simp only [insertSorted, if_neg h1, if_neg h2, List.mem_cons, ih]
        tauto

theorem pairwise_insertSorted {a : Nat} {l : List Nat}
    (h : l.Pairwise (· < ·)) : (insertSorted a l).Pairwise (· < ·) := by
  induction l with
  | nil => simp [insertSorted]
  | cons c l ih =>
    rcases List.pairwise_cons.mp h with ⟨hc, hl⟩
    by_cases h1 : a < c
    · rw [insertSorted, if_pos h1]
      refine List.pairwise_cons.mpr ⟨?_, h⟩
      intro b hb
      rcases List.mem_cons.mp hb with rfl | hb
      · exact h1
      · exact h1.trans (hc b hb)
    · by_cases h2 : a = c
      · rw [insertSorted, if_neg h1, if_pos h2]
        exact h
      · have hca : c < a := by omega
        rw [insertSorted, if_neg h1, if_neg h2]
        refine List.pairwise_cons.mpr ⟨?_, ih hl⟩
        intro b hb
        rcases mem_insertSorted.mp hb with rfl | hb
        · exact hca
        · exact hc b hb

theorem mem_sortedUnique {a : Nat} {l : List Nat} :
    a ∈ sortedUnique l ↔ a ∈ l := by
  induction l with
  | nil => simp [sortedUnique]
  | cons b l ih =>
    simp only [sortedUnique, List.foldr_cons] at *
    rw [mem_insertSorted, ih, List.mem_cons]

theorem pairwise_sortedUnique (l : List Nat) :
    (sortedUnique l).Pairwise (· < ·) := by
  induction l with
  | nil => simp [sortedUnique]
  | cons b l ih => exact pairwise_insertSorted ih

theorem nodup_sortedUnique (l : List Nat) : (sortedUnique l).Nodup :=
  (pairwise_sortedUnique l).imp (fun h => Nat.ne_of_lt h)

/-- Two ascending duplicate-free lists with the same members are equal. -/
theorem eq_of_pairwise_lt_of_mem_iff :
    ∀ {l₁ l₂ : List Nat}, l₁.Pairwise (· < ·) → l₂.Pairwise (· < ·) →
      (∀ a, a ∈ l₁ ↔ a ∈ l₂) → l₁ = l₂ := by
  intro l₁
  induction l₁ with
  | nil =>
    intro l₂ _ _ hmem
    cases l₂ with
    | nil => rfl
    | cons b l₂ => exact absurd ((hmem b).mpr (List.mem_cons_self b l₂)) (by simp)
  | cons a l₁ ih =>
    intro l₂ h₁ h₂ hmem
    cases l₂ with
    | nil => exact absurd ((hmem a).mp (List.mem_cons_self a l₁)) (by simp)
    | cons b l₂ =>
      rcases List.pairwise_cons.mp h₁ with ⟨ha₁, hl₁⟩
      rcases List.pairwise_cons.mp h₂ with ⟨hb₂, hl₂⟩
      have hab : a = b := by
        rcases List.mem_cons.mp ((hmem a).mp (List.mem_cons_self a l₁)) with h | h
        · exact h
        · rcases List.mem_cons.mp ((hmem b).mpr (List.mem_cons_self b l₂)) with h' | h'
          · exact h'.symm
          · exact absurd (ha₁ b h') (by have := hb₂ a h; omega)
      subst hab
      have htail : ∀ x, x ∈ l₁ ↔ x ∈ l₂ := by
        intro x
        constructor
        · intro hx
          rcases List.mem_cons.mp ((hmem x).mp (List.mem_cons_of_mem a hx)) with h | h
          · exact absurd (ha₁ x hx) (by omega)
          · exact h
        · intro hx
          rcases List.mem_cons.mp ((hmem x).mpr (List.mem_cons_of_mem a hx)) with h | h
          · exact absurd (hb₂ x hx) (by omega)
          · exact h
      rw [ih hl₁ hl₂ htail]

theorem sortedUnique_congr {l₁ l₂ : List Nat} (h : ∀ a, a ∈ l₁ ↔ a ∈ l₂) :
    sortedUnique l₁ = sortedUnique l₂ :=
  eq_of_pairwise_lt_of_mem_iff (pairwise_sortedUnique l₁) (pairwise_sortedUnique l₂)
    (fun a => by rw [mem_sortedUnique, mem_sortedUnique]; exact h a)

theorem sortedUnique_eq_self {l : List Nat} (h : l.Pairwise (· < ·)) :
    sortedUnique l = l :=
  eq_of_pairwise_lt_of_mem_iff (pairwise_sortedUnique l) h
    (fun a => mem_sortedUnique)

/-! ## The grouped aggregation primitive -/

/-- Per-key sum of the values paired with key `k`. -/
def groupSum (k : Nat) (pairs : List (Nat × ℚ)) : ℚ :=
  ((pairs.filter (fun p => decide (p.1 = k))).map (·.2)).sum

/-- Per-key sum of the counts paired with key `k`. -/
def groupCnt (k : Nat) (pairs : List (Nat × Nat)) : Nat :=
  ((pairs.filter (fun p => decide (p.1 = k))).map (·.2)).sum

/-- Modelled from the spec: the Grouped Aggregation Primitive `_sum_by_group`
of `pandapipes.pf.internals_toolbox` (not under `src/`), in the form used with
one value sequence — given parallel sequences of group keys and numeric
values, it returns the sorted list of the unique keys together with the
per-key sums of the values.  The `use_numba` flag selects between two
execution strategies that the spec requires to produce identical results, so
it does not influence the returned value. -/
def _sum_by_group (use_numba : Bool) (keys : List Nat) (values : List ℚ) :
    List Nat × List ℚ :=
  (sortedUnique keys, (sortedUnique keys).map (fun k => groupSum k (keys.zip values)))

/-- Modelled from the spec: the Grouped Aggregation Primitive `_sum_by_group`
of `pandapipes.pf.internals_toolbox` (not under `src/`), in the form used with
a value sequence and a parallel counts-to-combine sequence — it additionally
returns the per-key sums of the counts (the per-key occurrence count when the
counts are all one). -/
def _sum_by_group_cnt (use_numba : Bool) (keys : List Nat) (values : List ℚ)
    (counts : List Nat) : List Nat × List ℚ × List Nat :=
  (sortedUnique keys,
   (sortedUnique keys).map (fun k => groupSum k (keys.zip values)),
   (sortedUnique keys).map (fun k => groupCnt k (keys.zip counts)))

/-! ## Lemmas about the embedding primitives -/

theorem zip_map_same (f : α → β) (g : α → γ) (l : List α) :
    (l.map f).zip (l.map g) = l.map (fun a => (f a, g a)) := by
  induction l with
  | nil => rfl
  | cons a l ih => simp [ih]

theorem zipWith_map_same (h : β → γ → δ) (f : α → β) (g : α → γ) (l : List α) :
    List.zipWith h (l.map f) (l.map g) = l.map (fun a => h (f a) (g a)) := by
  induction l with
  | nil => rfl
  | cons a l ih => simp [ih]

theorem filter_of_map (p : β → Bool) (f : α → β) (l : List α) :
    (l.map f).filter p = (l.filter (fun a => p (f a))).map f := by
  induction l with
  | nil => rfl
  | cons a l ih =>
    by_cases h : p (f a) <;> simp [List.filter_cons, h, ih]

theorem gather_cons (vals : List α) (d : α) (i : Nat) (idxs : List Nat) :
    gather vals d (i :: idxs) = vals.getD i d :: gather vals d idxs := rfl

theorem gather_map_succ (v : α) (vs : List α) (d : α) (idxs : List Nat) :
    gather (v :: vs) d (idxs.map (· + 1)) = gather vs d idxs := by
  simp [gather, List.map_map, Function.comp]

theorem gather_wherePositions (p : α → Bool) (f : α → β) (d : β) (l : List α) :
    gather (l.map f) d (wherePositions p l) = (l.filter p).map f := by
  induction l with
  | nil => rfl
  | cons a l ih =>
    by_cases h : p a
    · rw [wherePositions, if_pos h, List.filter_cons_of_pos h, List.map_cons,
        List.map_cons, gather_cons, List.getD_cons_zero, gather_map_succ, ih]
    · rw [wherePositions, if_neg h, List.filter_cons_of_neg h, List.map_cons,
        gather_map_succ, ih]

theorem lookupList_eq_some_map (lookup : Nat → Option Nat) (ks : List Nat)
    (h : ∀ k ∈ ks, (lookup k).isSome) :
    lookupList lookup ks = some (ks.map (fun k => (lookup k).getD 0)) := by
  induction ks with
  | nil => rfl
  | cons k ks ih =>
    have hk : (lookup k).isSome := h k (List.mem_cons_self k ks)
    obtain ⟨n, hn⟩ := Option.isSome_iff_exists.mp hk
    rw [lookupList, ih (fun k' hk' => h k' (List.mem_cons_of_mem k hk')), hn]
    simp [hn]

theorem lookupList_some_elim (lookup : Nat → Option Nat) (ks v : List Nat)
    (h : lookupList lookup ks = some v) :
    (∀ k ∈ ks, (lookup k).isSome) ∧ v = ks.map (fun k => (lookup k).getD 0) := by
  induction ks generalizing v with
  | nil =>
    simp only [lookupList] at h
    cases h
    exact ⟨by simp, rfl⟩
  | cons k ks ih =>
    rw [lookupList] at h
    cases hk : lookup k with
    | none => rw [hk] at h; exact absurd h (by simp)
    | some n =>
      rw [hk] at h
      cases hks : lookupList lookup ks with
      | none => rw [hks] at h; exact absurd h (by simp)
      | some ns =>
        rw [hks] at h
        cases h
        obtain ⟨h1, h2⟩ := ih ns hks
        constructor
        · intro k' hk'
          rcases List.mem_cons.mp hk' with rfl | hm
          · simp [hk]
          · exact h1 k' hm
        · simp [hk, h2]

/-! ### Scatter lemmas -/

theorem scatterCol_not_mem (f : α → ℚ → α) (tab : Nat → α) (l : List (Nat × ℚ))
    (n : Nat) (h : n ∉ l.map Prod.fst) : scatterCol f tab l n = tab n := by
  induction l generalizing tab with
  | nil => rfl
  | cons iv l ih =>
    simp only [List.map_cons, List.mem_cons] at h
    push_neg at h
    rw [scatterCol, ih _ h.2, Function.update_noteq h.1]

theorem scatterCol_single (f : α → ℚ → α) (tab : Nat → α) (l : List (Nat × ℚ))
    (n : Nat) (v : ℚ) (h : l.filter (fun p => decide (p.1 = n)) = [(n, v)]) :
    scatterCol f tab l n = f (tab n) v := by
  induction l generalizing tab with
  | nil => exact absurd h (by simp)
  | cons iv l ih =>
    rcases iv with ⟨m, w⟩
    by_cases hm : m = n
    · subst hm
      rw [List.filter_cons_of_pos (by simp)] at h
      rw [List.cons.injEq] at h
      obtain ⟨hw, hrest⟩ := h
      rw [Prod.mk.injEq] at hw
      obtain ⟨-, rfl⟩ := hw
      have hnm : m ∉ l.map Prod.fst := by
        intro hmem
        obtain ⟨p, hp, hfst⟩ := List.mem_map.mp hmem
        have : p ∈ l.filter (fun p => decide (p.1 = m)) :=
          List.mem_filter.mpr ⟨hp, by simp [hfst]⟩
        rw [hrest] at this
        simp at this
      rw [scatterCol, scatterCol_not_mem f _ l m hnm, Function.update_same]
    · rw [List.filter_cons_of_neg (by simp [hm])] at h
      rw [scatterCol, ih _ h, Function.update_noteq (Ne.symm hm)]

theorem scatterCol_preserve (f : α → ℚ → α) (g : α → β)
    (hf : ∀ r v, g (f r v) = g r) (tab : Nat → α) (l : List (Nat × ℚ)) (n : Nat) :
    g (scatterCol f tab l n) = g (tab n) := by
  induction l generalizing tab with
  | nil => rfl
  | cons iv l ih =>
    rw [scatterCol, ih]
    by_cases h : n = iv.1
    · subst h; rw [Function.update_same, hf]
    · rw [Function.update_noteq h]

theorem scatterConst_not_mem (f : α → α) (tab : Nat → α) (l : List Nat)
    (n : Nat) (h : n ∉ l) : scatterConst f tab l n = tab n := by
  induction l generalizing tab with
  | nil => rfl
  | cons i l ih =>
    simp only [List.mem_cons] at h
    push_neg at h
    rw [scatterConst, ih _ h.2, Function.update_noteq h.1]

theorem scatterConst_single (f : α → α) (tab : Nat → α) (l : List Nat)
    (n : Nat) (h : l.filter (fun m => decide (m = n)) = [n]) :
    scatterConst f tab l n = f (tab n) := by
  induction l generalizing tab with
  | nil => exact absurd h (by simp)
  | cons m l ih =>
    by_cases hm : m = n
    · subst hm
      rw [List.filter_cons_of_pos (by simp)] at h
      rw [List.cons.injEq] at h
      obtain ⟨-, hrest⟩ := h
      have hnm : m ∉ l := by
        intro hmem
        have : m ∈ l.filter (fun k => decide (k = m)) :=
          List.mem_filter.mpr ⟨hmem, by simp⟩
        rw [hrest] at this
        simp at this
      rw [scatterConst, scatterConst_not_mem f _ l m hnm, Function.update_same]
    · rw [List.filter_cons_of_neg (by simp [hm])] at h
      rw [scatterConst, ih _ h, Function.update_noteq (Ne.symm hm)]

theorem scatterConst_preserve (f : α → α) (g : α → β)
    (hf : ∀ r, g (f r) = g r) (tab : Nat → α) (l : List Nat) (n : Nat) :
    g (scatterConst f tab l n) = g (tab n) := by
  induction l generalizing tab with
  | nil => rfl
  | cons i l ih =>
    rw [scatterConst, ih]
    by_cases h : n = i
    · subst h; rw [Function.update_same, hf]
    · rw [Function.update_noteq h]

/-- A duplicate-free list in which `j` is the only element satisfying `p`
filters to the singleton `[j]`. -/
theorem filter_eq_singleton_of_unique {l : List Nat} {j : Nat} (p : Nat → Bool)
    (hnd : l.Nodup) (hj : j ∈ l) (huniq : ∀ k ∈ l, p k = true ↔ k = j) :
    l.filter p = [j] := by
  induction l with
  | nil => exact absurd hj (by simp)
  | cons a l ih =>
    rcases List.nodup_cons.mp hnd with ⟨ha, hnd'⟩
    by_cases haj : a = j
    · subst haj
      rw [List.filter_cons_of_pos ((huniq a (List.mem_cons_self a l)).mpr rfl)]
      have : l.filter p = [] := by
        rw [List.filter_eq_nil_iff]
        intro k hk hp
        exact ha (((huniq k (List.mem_cons_of_mem a hk)).mp hp) ▸ hk)
      rw [this]
    · have hjl : j ∈ l := by
        rcases List.mem_cons.mp hj with h | h
        · exact absurd h.symm haj
        · exact h
      rw [List.filter_cons_of_neg, ih hnd' hjl
        (fun k hk => huniq k (List.mem_cons_of_mem a hk))]
      intro hpa
      exact haj ((huniq a (List.mem_cons_self a l)).mp hpa)

/-! ## Data model

The internal node and branch tables (`node_pit`, `branch_pit`) are float
matrices with one row per node / branch and a fixed column enumeration
(`pandapipes.idx_node`, `pandapipes.idx_branch`).  A row is embedded as a
record holding the columns that the two source files read or write; the
tables are embedded as functions from row index to row (node table, mutated
through scatter assignments) or as row lists (branch table, element tables).
-/

/-- One row of the internal node table; columns from `pandapipes.idx_node`
read or written by the sources: `PINIT`, `TINIT`, `PAMB`, `LOAD`,
`NODE_TYPE`, `NODE_TYPE_T`, `EXT_GRID_OCCURENCE`, `EXT_GRID_OCCURENCE_T`. -/
structure NodeRow where
  pinit : ℚ
  tinit : ℚ
  pamb : ℚ
  load : ℚ
  node_type : ℚ
  node_type_t : ℚ
  ext_grid_occurence : ℚ
  ext_grid_occurence_t : ℚ
deriving DecidableEq, Repr

/-- One row of the internal branch table; columns from
`pandapipes.idx_branch` read or written by the sources: `FROM_NODE`,
`TO_NODE`, `VINIT`, `D`, `AREA`, `LOSS_COEFFICIENT`, `PL`, `PRESSURE_RATIO`,
`LOAD_VEC_NODES`.  The node indices are stored as floats in the pit and cast
with `astype(np.int32)` before use; they are embedded directly as `Nat`. -/
structure BranchRow where
  from_node : Nat
  to_node : Nat
  vinit : ℚ
  d : ℚ
  area : ℚ
  loss_coefficient : ℚ
  pl : ℚ
  pressure_ratio : ℚ
  load_vec_nodes : ℚ
deriving DecidableEq, Repr

/-- One row of the external `ext_grid` element configuration table, with the
columns of `ExtGrid.get_component_input`: `junction`, `p_bar`, `t_k`,
`in_service`, `type` (the `name` text column plays no role in the embedded
code).  The `type` column holds an arbitrary string tag; the code matches it
against `"p"`, `"t"` and `"pt"`. -/
structure ExtGridRow where
  junction : Nat
  p_bar : ℚ
  t_k : ℚ
  in_service : Bool
  type : String
deriving DecidableEq, Repr

/-- Modelled from the spec: the node-type flag value `P` from
`pandapipes.idx_node` (not under `src/`) marking a node whose pressure is
fixed by a boundary condition; the spec fixes only that it is a fixed value
distinct from the temperature flag. -/
def P : ℚ := 1

/-- Modelled from the spec: the node-type flag value `T` from
`pandapipes.idx_node` (not under `src/`) marking a node whose temperature is
fixed by a boundary condition. -/
def T : ℚ := 2

/-- The IEEE-754 double closest to π, the exact value of `np.pi`
(884279719003555 · 2⁻⁴⁸). -/
def np_pi : ℚ := 884279719003555 / 281474976710656

/-- `ExtGrid.sign`, the sign convention factor of the ext-grid result. -/
def ExtGrid.sign : ℚ := 1

/-! ## Compressor component

Embedding of `src/pandapipes/component_models/compressor_component.py`.
-/

/-- `Compressor.create_pit_branch_entries`.  The slice of the branch pit that
the inherited `super(Pump, cls).create_pit_branch_entries` call returns is
not under `src/` (it belongs to `BranchComponent`), so its output `pit0` is
taken as an arbitrary input; the embedded function performs exactly the four
column writes that follow the super call: `D` is set to `0.1`, `AREA` to
`D² · π / 4` from the just-written diameter column, `LOSS_COEFFICIENT` to
`0`, and `PRESSURE_RATIO` is copied from the configuration table's
`pressure_ratio` column (failing, as numpy does, if the column length does
not match the slice). -/
def Compressor.create_pit_branch_entries (pit0 : List BranchRow)
    (pressure_ratio_values : List ℚ) : Option (List BranchRow) :=
  let pit1 := pit0.map (fun b => { b with d := 1/10 })
  let pit2 := pit1.map (fun b => { b with area := b.d ^ 2 * np_pi / 4 })
  let pit3 := pit2.map (fun b => { b with loss_coefficient := 0 })
  if pit3.length = pressure_ratio_values.length then
    some ((pit3.zip pressure_ratio_values).map
      (fun p => { p.1 with pressure_ratio := p.2 }))
  else none

/-- `Compressor.adaption_before_derivatives`.  The row range `[f, t)` of the
compressor rows comes from `idx_lookups[cls.table_name()]`; the hook writes
the recomputed pressure lift into the `PL` column of exactly those rows and
returns both tables (the node table untouched, as the source only reads it). -/
def Compressor.adaption_before_derivatives (f t : Nat) (branch_pit : Nat → BranchRow)
    (node_pit : Nat → NodeRow) : (Nat → BranchRow) × (Nat → NodeRow) :=
  (fun i =>
    if f ≤ i ∧ i < t then
      let b := branch_pit i
      let p_from := (node_pit b.from_node).pamb + (node_pit b.from_node).pinit
      let pl_abs := if b.vinit < 0 then 0 else p_from * b.pressure_ratio - p_from
      { b with pl := pl_abs }
    else branch_pit i,
   node_pit)

/-- Characterization of `Compressor.create_pit_branch_entries`: when the
ratio column has the slice's length the call succeeds and every result row
has the written values. -/
theorem compressor_entries_char (pit0 : List BranchRow) (prv : List ℚ)
    (hlen : pit0.length = prv.length) :
    ∃ pit', Compressor.create_pit_branch_entries pit0 prv = some pit' ∧
      pit'.length = pit0.length ∧
      ∀ i b, pit'.get? i = some b →
        b.d = 1/10 ∧ b.area = (1/10) ^ 2 * np_pi / 4 ∧ b.loss_coefficient = 0 ∧
        b.pressure_ratio = prv.getD i 0 := by
  unfold Compressor.create_pit_branch_entries
  simp only [List.length_map]
  rw [if_pos hlen]
  refine ⟨_, rfl, ?_, ?_⟩
  · simp [List.length_zip, hlen]
  · intro i b hb
    rw [get?_map_opt] at hb
    rcases Option.map_eq_some'.mp hb with ⟨⟨b3, r⟩, hzip, hval⟩
    have h3 : ∀ (l1 : List BranchRow) (l2 : List ℚ) (i : Nat) (a : BranchRow) (q : ℚ),
        (l1.zip l2).get? i = some (a, q) → l1.get? i = some a ∧ l2.get? i = some q := by
      intro l1
      induction l1 with
      | nil => intro l2 i a q h; simp [List.zip] at h
      | cons x l1 ih =>
        intro l2 i a q h
        cases l2 with
        | nil => simp [List.zip] at h
        | cons y l2 =>
          cases i with
          | zero =>
            simp only [List.zip_cons_cons, List.get?] at h ⊢
            rw [Option.some.injEq, Prod.mk.injEq] at h
            exact ⟨by rw [h.1], by rw [h.2]⟩
          | succ i =>
            simp only [List.zip_cons_cons, List.get?] at h ⊢
            exact ih l2 i a q h
    obtain ⟨hb3, hr⟩ := h3 _ _ _ _ _ hzip
    simp only [get?_map_opt] at hb3
    rcases Option.map_eq_some'.mp hb3 with ⟨b2, hb2, hval3⟩
    rcases Option.map_eq_some'.mp hb2 with ⟨b1, hb1, hval2⟩
    rcases Option.map_eq_some'.mp hb1 with ⟨b0, hb0, hval1⟩
    subst hval hval3 hval2 hval1
    have hgetD : prv.getD i 0 = r := by
      rw [List.getD_eq_getD_get?, hr]; rfl
    exact ⟨rfl, rfl, rfl, by rw [hgetD]⟩

/-- C7: after `Compressor.create_pit_branch_entries`, every compressor branch
row has diameter `0.1`, area `0.1² · π / 4`, loss coefficient `0`, the
configuration table's pressure ratio, and the stored area equals
`π · d² / 4` for the stored diameter (and is within `10⁻⁶` of `0.007854`). -/
theorem c7_branch_entry_values (pit0 : List BranchRow) (prv : List ℚ)
    (hlen : pit0.length = prv.length) :
    ∃ pit', Compressor.create_pit_branch_entries pit0 prv = some pit' ∧
      ∀ i b, pit'.get? i = some b →
        b.d = 1/10 ∧ b.area = (1/10) ^ 2 * np_pi / 4 ∧ b.loss_coefficient = 0 ∧
        b.pressure_ratio = prv.getD i 0 ∧ b.area = np_pi * b.d ^ 2 / 4 ∧
        |b.area - 7854/1000000| < 1/1000000 := by
  obtain ⟨pit', hres, -, hrow⟩ := compressor_entries_char pit0 prv hlen
  refine ⟨pit', hres, ?_⟩
  intro i b hb
  obtain ⟨hd, harea, hlc, hpr⟩ := hrow i b hb
  refine ⟨hd, harea, hlc, hpr, ?_, ?_⟩
  · rw [harea, hd]; ring
  · rw [harea, np_pi]
    rw [abs_sub_lt_iff]
    norm_num

/-- C7 witness: a single compressor row over an arbitrary base row. -/
theorem c7_branch_entry_values_witness :
    ∃ pit', Compressor.create_pit_branch_entries
        [{ from_node := 0, to_node := 1, vinit := 0, d := 0, area := 0,
           loss_coefficient := 5, pl := 0, pressure_ratio := 0,
           load_vec_nodes := 0 }] [3/2] = some pit' ∧
      ∀ i b, pit'.get? i = some b →
        b.d = 1/10 ∧ b.area = (1/10) ^ 2 * np_pi / 4 ∧ b.loss_coefficient = 0 ∧
        b.pressure_ratio = [(3/2 : ℚ)].getD i 0 ∧ b.area = np_pi * b.d ^ 2 / 4 ∧
        |b.area - 7854/1000000| < 1/1000000 :=
  c7_branch_entry_values _ _ (by decide)

/-- C5 counterexample: a compressor configuration row with the out-of-range
`pressure_ratio = -1/2` is accepted by `Compressor.create_pit_branch_entries`
without any error: the call succeeds and the non-positive value is stored
verbatim in the branch table. -/
theorem c5_counterexample :
    (Compressor.create_pit_branch_entries
        [{ from_node := 0, to_node := 1, vinit := 0, d := 0, area := 0,
           loss_coefficient := 0, pl := 0, pressure_ratio := 0,
           load_vec_nodes := 0 }] [-2]).map
      (fun pit => pit.map (·.pressure_ratio)) = some [-2] := by
  norm_num [Compressor.create_pit_branch_entries]

/-- C5 as amended: `Compressor.create_pit_branch_entries` performs no range
validation of `pressure_ratio`; a non-positive value is silently copied
verbatim into the branch table's pressure-ratio column and no error is
signalled by the setup hook. -/
theorem c5_amended_no_validation (pit0 : List BranchRow) (prv : List ℚ) (i : Nat)
    (hlen : pit0.length = prv.length) (hi : i < prv.length)
    (hneg : prv.getD i 0 ≤ 0) :
    ∃ pit', Compressor.create_pit_branch_entries pit0 prv = some pit' ∧
      (pit'.get? i).map (·.pressure_ratio) = some (prv.getD i 0) := by
  obtain ⟨pit', hres, hlen', hrow⟩ := compressor_entries_char pit0 prv hlen
  refine ⟨pit', hres, ?_⟩
  have hi' : i < pit'.length := by omega
  cases hb : pit'.get? i with
  | none =>
    have := List.get?_eq_none.mp hb
    omega
  | some b =>
    obtain ⟨-, -, -, hpr⟩ := hrow i b hb
    simp [hpr]

/-- C5 amended witness. -/
theorem c5_amended_no_validation_witness :
    ∃ pit', Compressor.create_pit_branch_entries
        [{ from_node := 0, to_node := 1, vinit := 0, d := 0, area := 0,
           loss_coefficient := 0, pl := 0, pressure_ratio := 0,
           load_vec_nodes := 0 }] [-3] = some pit' ∧
      (pit'.get? 0).map (·.pressure_ratio) = some ([(-3 : ℚ)].getD 0 0) :=
  c5_amended_no_validation _ _ 0 (by decide) (by decide) (by norm_num)

/-- C2: each invocation of `Compressor.adaption_before_derivatives` writes,
for every compressor row in its range, the pressure lift recomputed from the
current state: `(PAMB + PINIT at the from-node) · pressure_ratio − (PAMB +
PINIT at the from-node)` when the current velocity estimate is non-negative,
and `0` when it is strictly negative. -/
theorem c2_pressure_lift (f t : Nat) (branch_pit : Nat → BranchRow)
    (node_pit : Nat → NodeRow) (i : Nat) (hf : f ≤ i) (ht : i < t) :
    (((Compressor.adaption_before_derivatives f t branch_pit node_pit).1 i).pl) =
      if 0 ≤ (branch_pit i).vinit then
        ((node_pit (branch_pit i).from_node).pamb +
            (node_pit (branch_pit i).from_node).pinit) * (branch_pit i).pressure_ratio -
          ((node_pit (branch_pit i).from_node).pamb +
            (node_pit (branch_pit i).from_node).pinit)
      else 0 := by
  unfold Compressor.adaption_before_derivatives
  simp only
  rw [if_pos ⟨hf, ht⟩]
  rcases lt_or_ge (branch_pit i).vinit 0 with hv | hv
  · rw [if_pos hv, if_neg (not_le.mpr hv)]
  · rw [if_neg (not_lt.mpr hv), if_pos hv]

/-- C2 witness: the spec's example — ratio `1.2`, inlet absolute pressure
`5` (ambient `1` + estimate `4`), non-negative flow gives lift `1`; the same
configuration with reversed flow (range `[1, 2)` holds a second compressor
row with negative velocity) gives lift `0`. -/
theorem c2_pressure_lift_witness :
    (((Compressor.adaption_before_derivatives 0 2
        (fun i => { from_node := 0, to_node := 1, vinit := if i = 0 then 3 else -3,
                    d := 0, area := 0, loss_coefficient := 0, pl := 0,
                    pressure_ratio := 6/5, load_vec_nodes := 0 })
        (fun _ => { pinit := 4, tinit := 0, pamb := 1, load := 0, node_type := 0,
                    node_type_t := 0, ext_grid_occurence := 0,
                    ext_grid_occurence_t := 0 })).1 0).pl) = 1 ∧
    (((Compressor.adaption_before_derivatives 0 2
        (fun i => { from_node := 0, to_node := 1, vinit := if i = 0 then 3 else -3,
                    d := 0, area := 0, loss_coefficient := 0, pl := 0,
                    pressure_ratio := 6/5, load_vec_nodes := 0 })
        (fun _ => { pinit := 4, tinit := 0, pamb := 1, load := 0, node_type := 0,
                    node_type_t := 0, ext_grid_occurence := 0,
                    ext_grid_occurence_t := 0 })).1 1).pl) = 0 := by
  constructor
  · rw [c2_pressure_lift 0 2 _ _ 0 (by omega) (by omega)]
    norm_num
  · rw [c2_pressure_lift 0 2 _ _ 1 (by omega) (by omega)]
    norm_num

/-- C8: `Compressor.adaption_before_derivatives` modifies nothing outside its
row range `[f, t)` — every branch row outside the range and the whole node
table are returned unchanged — and inside the range it writes only the `PL`
column. -/
theorem c8_frame (f t : Nat) (branch_pit : Nat → BranchRow) (node_pit : Nat → NodeRow) :
    (∀ i, i < f ∨ t ≤ i →
      (Compressor.adaption_before_derivatives f t branch_pit node_pit).1 i = branch_pit i) ∧
    (∀ i, f ≤ i → i < t →
      (Compressor.adaption_before_derivatives f t branch_pit node_pit).1 i =
        { branch_pit i with
            pl := ((Compressor.adaption_before_derivatives f t branch_pit node_pit).1 i).pl }) ∧
    (Compressor.adaption_before_derivatives f t branch_pit node_pit).2 = node_pit := by
  refine ⟨?_, ?_, rfl⟩
  · intro i hi
    unfold Compressor.adaption_before_derivatives
    simp only
    rw [if_neg (by omega)]
  · intro i hf ht
    unfold Compressor.adaption_before_derivatives
    simp only
    rw [if_pos ⟨hf, ht⟩]

/-- C8 witness: range `[1, 2)` over concrete tables — row 0 is unchanged, row
1 differs only in `PL`, the node table is returned as passed. -/
theorem c8_frame_witness :
    ((Compressor.adaption_before_derivatives 1 2
        (fun i => { from_node := 0, to_node := 1, vinit := 2, d := 3, area := 4,
                    loss_coefficient := 5, pl := 6, pressure_ratio := 7,
                    load_vec_nodes := 8 })
        (fun _ => { pinit := 9, tinit := 10, pamb := 11, load := 12, node_type := 0,
                    node_type_t := 0, ext_grid_occurence := 0,
                    ext_grid_occurence_t := 0 })).1 0 =
      { from_node := 0, to_node := 1, vinit := 2, d := 3, area := 4,
        loss_coefficient := 5, pl := 6, pressure_ratio := 7, load_vec_nodes := 8 }) ∧
    ((Compressor.adaption_before_derivatives 1 2
        (fun i => { from_node := 0, to_node := 1, vinit := 2, d := 3, area := 4,
                    loss_coefficient := 5, pl := 6, pressure_ratio := 7,
                    load_vec_nodes := 8 })
        (fun _ => { pinit := 9, tinit := 10, pamb := 11, load := 12, node_type := 0,
                    node_type_t := 0, ext_grid_occurence := 0,
                    ext_grid_occurence_t := 0 })).1 1 =
      { from_node := 0, to_node := 1, vinit := 2, d := 3, area := 4,
        loss_coefficient := 5,
        pl := ((Compressor.adaption_before_derivatives 1 2
          (fun i => { from_node := 0, to_node := 1, vinit := 2, d := 3, area := 4,
                      loss_coefficient := 5, pl := 6, pressure_ratio := 7,
                      load_vec_nodes := 8 })
          (fun _ => { pinit := 9, tinit := 10, pamb := 11, load := 12, node_type := 0,
                      node_type_t := 0, ext_grid_occurence := 0,
                      ext_grid_occurence_t := 0 })).1 1).pl,
        pressure_ratio := 7, load_vec_nodes := 8 }) ∧
    (Compressor.adaption_before_derivatives 1 2
        (fun i => { from_node := 0, to_node := 1, vinit := 2, d := 3, area := 4,
                    loss_coefficient := 5, pl := 6, pressure_ratio := 7,
                    load_vec_nodes := 8 })
        (fun _ => { pinit := 9, tinit := 10, pamb := 11, load := 12, node_type := 0,
                    node_type_t := 0, ext_grid_occurence := 0,
                    ext_grid_occurence_t := 0 })).2 =
      (fun _ => { pinit := 9, tinit := 10, pamb := 11, load := 12, node_type := 0,
                  node_type_t := 0, ext_grid_occurence := 0,
                  ext_grid_occurence_t := 0 }) := by
  refine ⟨?_, ?_, (c8_frame 1 2 _ _).2.2⟩
  · exact (c8_frame 1 2 _ _).1 0 (Or.inl (by omega))
  · exact (c8_frame 1 2 _ _).2.1 1 (by omega) (by omega)

/-! ## ExtGrid component

Embedding of `src/pandapipes/component_models/ext_grid_component.py`.
-/

/-- Embedding of the numpy in-place `tab[index, col] += number` on a float
column of the node table: the current column values are gathered from the
pre-assignment table, the numbers are added, and the results are scattered
back (so a duplicate index is incremented once, by its last number — numpy's
buffered fancy-index `+=`). -/
def scatterAdd (getC : NodeRow → ℚ) (setC : NodeRow → ℚ → NodeRow)
    (pit : Nat → NodeRow) (index : List Nat) (number : List Nat) : Nat → NodeRow :=
  scatterCol setC pit
    (index.zip ((index.zip number).map (fun p => getC (pit p.1) + (p.2 : ℚ))))

/-- The three node-table column writes that `ExtGrid.create_pit_node_entries`
performs per subtype (the source repeats the same statement triple once for
the pressure columns and once for the temperature columns):
`node_pit[index, VAL] = sums / number`, `node_pit[index, FLAG] = const` and
`node_pit[index, OCC] += number`.  `setVal`, `setFlag`, `getOcc` and `setOcc`
select the subtype's value column, flag column (with its constant) and
occurrence column. -/
def boundarySideWrites (setVal : NodeRow → ℚ → NodeRow) (setFlag : NodeRow → NodeRow)
    (getOcc : NodeRow → ℚ) (setOcc : NodeRow → ℚ → NodeRow)
    (index : List Nat) (sums : List ℚ) (number : List Nat)
    (pit : Nat → NodeRow) : Nat → NodeRow :=
  scatterAdd getOcc setOcc
    (scatterConst setFlag
      (scatterCol setVal pit
        (index.zip (List.zipWith (fun s c => s / c) sums
          (number.map (fun (c : Nat) => (c : ℚ))))))
      index)
    index number

/-- `ExtGrid.create_pit_node_entries`.  The table is first restricted to its
in-service rows; for the subtype masks `type ∈ {p, pt}` (pressure) and
`type ∈ {t, pt}` (temperature) the target values are gathered from the
*filtered* frame while — exactly as in the source, where
`get_connected_junction` returns the *unfiltered* `junction` column — the
junction keys are gathered from the unfiltered column at the mask positions.
The grouped sums and counts then drive the three column writes per subtype
(`boundarySideWrites`).  `junction_idx_lookups` embeds
`get_lookup(net, "node", "index")[...]` (not under `src/`; a partial map from
junction label to node-table row, failing on a dangling label).  The source's
final write of `net["_lookups"]["ext_grid"]` and its return value
`(ext_grids, press)` do not touch the node table and are not part of the
embedded effect. -/
def ExtGrid.create_pit_node_entries (use_numba : Bool)
    (junction_idx_lookups : Nat → Option Nat) (tbl : List ExtGridRow)
    (node_pit : Nat → NodeRow) : Option (Nat → NodeRow) :=
  let ext_grids := tbl.filter (·.in_service)
  let p_mask := wherePositions (fun r => decide (r.type ∈ ["p", "pt"])) ext_grids
  let press := gather (ext_grids.map (·.p_bar)) 0 p_mask
  let junction := tbl.map (·.junction)
  let sbg_p := _sum_by_group_cnt use_numba (gather junction 0 p_mask) press
      (List.replicate press.length 1)
  match lookupList junction_idx_lookups sbg_p.1 with
  | none => none
  | some index_p =>
    let pit3 := boundarySideWrites (fun r v => { r with pinit := v })
      (fun r => { r with node_type := P }) (·.ext_grid_occurence)
      (fun r v => { r with ext_grid_occurence := v }) index_p sbg_p.2.1 sbg_p.2.2 node_pit
    let t_mask := wherePositions (fun r => decide (r.type ∈ ["t", "pt"])) ext_grids
    let t_k := gather (ext_grids.map (·.t_k)) 0 t_mask
    let sbg_t := _sum_by_group_cnt use_numba (gather junction 0 t_mask) t_k
        (List.replicate t_k.length 1)
    match lookupList junction_idx_lookups sbg_t.1 with
    | none => none
    | some index =>
      some (boundarySideWrites (fun r v => { r with tinit := v })
        (fun r => { r with node_type_t := T }) (·.ext_grid_occurence_t)
        (fun r v => { r with ext_grid_occurence_t := v }) index sbg_t.2.1 sbg_t.2.2 pit3)

theorem mem_fst_zip {l : List Nat} {vals : List α} {n : Nat}
    (h : n ∈ (l.zip vals).map Prod.fst) : n ∈ l := by
  obtain ⟨⟨a, b⟩, hp, hfst⟩ := List.mem_map.mp h
  cases hfst
  exact (List.of_mem_zip hp).1

theorem filter_map_pair (g : α → Nat) (F : α → β) (u : List α) (n : Nat) :
    (u.map (fun k => (g k, F k))).filter (fun p => decide (p.1 = n)) =
      (u.filter (fun k => decide (g k = n))).map (fun k => (g k, F k)) := by
  induction u with
  | nil => rfl
  | cons a u ih =>
    by_cases h : g a = n <;> simp [List.filter_cons, h, ih]

theorem scatterAdd_not_mem (getC : NodeRow → ℚ) (setC : NodeRow → ℚ → NodeRow)
    (pit : Nat → NodeRow) (index number : List Nat) (n : Nat) (h : n ∉ index) :
    scatterAdd getC setC pit index number n = pit n :=
  scatterCol_not_mem _ _ _ _ (fun hm => h (mem_fst_zip hm))

theorem scatterAdd_preserve (getC : NodeRow → ℚ) (setC : NodeRow → ℚ → NodeRow)
    (g : NodeRow → β) (hset : ∀ r v, g (setC r v) = g r) (pit : Nat → NodeRow)
    (index number : List Nat) (n : Nat) :
    g (scatterAdd getC setC pit index number n) = g (pit n) :=
  scatterCol_preserve _ _ hset _ _ _

theorem scatterAdd_single (getC : NodeRow → ℚ) (setC : NodeRow → ℚ → NodeRow)
    (pit : Nat → NodeRow) (u : List Nat) (f : Nat → Nat) (C : Nat → Nat) (n j : Nat)
    (hnd : u.Nodup) (hj : j ∈ u) (huniq : ∀ k ∈ u, f k = n ↔ k = j) :
    scatterAdd getC setC pit (u.map f) (u.map C) n =
      setC (pit n) (getC (pit n) + (C j : ℚ)) := by
  have hfn : f j = n := (huniq j hj).mpr rfl
  have hfilter : u.filter (fun k => decide (f k = n)) = [j] :=
    filter_eq_singleton_of_unique _ hnd hj (by
      intro k hk
      simp only [decide_eq_true_eq]
      exact huniq k hk)
  unfold scatterAdd
  have hpairs : (u.map f).zip (((u.map f).zip (u.map C)).map
      (fun p => getC (pit p.1) + (p.2 : ℚ))) =
      u.map (fun k => (f k, getC (pit (f k)) + (C k : ℚ))) := by
    rw [zip_map_same, List.map_map]
    rw [zip_map_same]
    simp [Function.comp]
  rw [hpairs]
  apply scatterCol_single
  rw [filter_map_pair, hfilter]
  simp [hfn]

theorem boundarySideWrites_preserve (setVal : NodeRow → ℚ → NodeRow)
    (setFlag : NodeRow → NodeRow) (getOcc : NodeRow → ℚ)
    (setOcc : NodeRow → ℚ → NodeRow) (g : NodeRow → β)
    (h1 : ∀ r v, g (setVal r v) = g r) (h2 : ∀ r, g (setFlag r) = g r)
    (h3 : ∀ r v, g (setOcc r v) = g r) (index : List Nat) (sums : List ℚ)
    (number : List Nat) (pit : Nat → NodeRow) (m : Nat) :
    g (boundarySideWrites setVal setFlag getOcc setOcc index sums number pit m) =
      g (pit m) := by
  unfold boundarySideWrites
  rw [scatterAdd_preserve _ _ _ h3, scatterConst_preserve _ _ h2,
    scatterCol_preserve _ _ h1]

theorem boundarySideWrites_apply_none (setVal : NodeRow → ℚ → NodeRow)
    (setFlag : NodeRow → NodeRow) (getOcc : NodeRow → ℚ)
    (setOcc : NodeRow → ℚ → NodeRow) (index : List Nat) (sums : List ℚ)
    (number : List Nat) (pit : Nat → NodeRow) (n : Nat) (h : n ∉ index) :
    boundarySideWrites setVal setFlag getOcc setOcc index sums number pit n = pit n := by
  unfold boundarySideWrites
  rw [scatterAdd_not_mem _ _ _ _ _ _ h, scatterConst_not_mem _ _ _ _ h]
  exact scatterCol_not_mem _ _ _ _ (fun hm => h (mem_fst_zip hm))

theorem boundarySideWrites_apply_unique (setVal : NodeRow → ℚ → NodeRow)
    (setFlag : NodeRow → NodeRow) (getOcc : NodeRow → ℚ)
    (setOcc : NodeRow → ℚ → NodeRow) (u : List Nat) (f : Nat → Nat) (S : Nat → ℚ)
    (C : Nat → Nat) (pit : Nat → NodeRow) (n j : Nat) (hnd : u.Nodup) (hj : j ∈ u)
    (huniq : ∀ k ∈ u, f k = n ↔ k = j) :
    boundarySideWrites setVal setFlag getOcc setOcc (u.map f) (u.map S) (u.map C) pit n =
      setOcc (setFlag (setVal (pit n) (S j / (C j : ℚ))))
        (getOcc (setFlag (setVal (pit n) (S j / (C j : ℚ)))) + (C j : ℚ)) := by
  have hfn : f j = n := (huniq j hj).mpr rfl
  have hfilter : u.filter (fun k => decide (f k = n)) = [j] :=
    filter_eq_singleton_of_unique _ hnd hj (by
      intro k hk
      simp only [decide_eq_true_eq]
      exact huniq k hk)
  have hfilter2 : (u.map f).filter (fun m => decide (m = n)) = [n] := by
    simp only [filter_of_map]
    rw [hfilter]
    simp [hfn]
  unfold boundarySideWrites
  have hpairs1 : (u.map f).zip
      (List.zipWith (fun s c => s / c) (u.map S) ((u.map C).map (fun (c : Nat) => (c : ℚ)))) =
      u.map (fun k => (f k, S k / (C k : ℚ))) := by
    rw [List.map_map, zipWith_map_same, zip_map_same]
    simp [Function.comp]
  rw [hpairs1]
  have h1 : scatterCol setVal pit (u.map fun k => (f k, S k / (C k : ℚ))) n =
      setVal (pit n) (S j / (C j : ℚ)) := by
    apply scatterCol_single
    rw [filter_map_pair, hfilter]
    simp [hfn]
  rw [scatterAdd_single getOcc setOcc _ u f C n j hnd hj huniq]
  rw [scatterConst_single _ _ _ _ hfilter2, h1]

/-! ### Characterization of `create_pit_node_entries` -/

/-- The junction keys of the rows of `tbl` whose type tag lies in `ty`. -/
def egJunctions (ty : List String) (tbl : List ExtGridRow) : List Nat :=
  (tbl.filter (fun r => decide (r.type ∈ ty))).map (·.junction)

/-- The target values (`g` = `p_bar` or `t_k`) of the rows of `tbl` whose
type tag lies in `ty`. -/
def egVals (g : ExtGridRow → ℚ) (ty : List String) (tbl : List ExtGridRow) : List ℚ :=
  (tbl.filter (fun r => decide (r.type ∈ ty))).map g

/-- The rows of `tbl` with type tag in `ty` that reference junction `j`. -/
def egRowsAt (ty : List String) (j : Nat) (tbl : List ExtGridRow) : List ExtGridRow :=
  tbl.filter (fun r => decide (r.type ∈ ty) && decide (r.junction = j))

/-- One subtype pass of `create_pit_node_entries` in grouped form: the unique
keys of `ks`, their looked-up node indices, grouped value sums and grouped
counts, fed to the three column writes. -/
def sideWritesOf (setVal : NodeRow → ℚ → NodeRow) (setFlag : NodeRow → NodeRow)
    (getOcc : NodeRow → ℚ) (setOcc : NodeRow → ℚ → NodeRow) (L : Nat → Option Nat)
    (ks : List Nat) (vs : List ℚ) (pit : Nat → NodeRow) : Nat → NodeRow :=
  boundarySideWrites setVal setFlag getOcc setOcc
    ((sortedUnique ks).map (fun k => (L k).getD 0))
    ((sortedUnique ks).map (fun k => groupSum k (ks.zip vs)))
    ((sortedUnique ks).map (fun k => groupCnt k (ks.zip (List.replicate vs.length 1))))
    pit

theorem zip_replicate_one (l : List Nat) :
    l.zip (List.replicate l.length 1) = l.map (fun k => (k, 1)) := by
  induction l with
  | nil => rfl
  | cons a l ih => simp [List.replicate_succ, ih]

theorem sum_map_one (l : List α) : (l.map (fun _ => (1 : Nat))).sum = l.length := by
  induction l with
  | nil => rfl
  | cons a l ih =>
    simp [ih]
    omega

theorem groupSum_zip_maps (key : α → Nat) (val : α → ℚ) (l : List α) (n : Nat) :
    groupSum n ((l.map key).zip (l.map val)) =
      ((l.filter (fun a => decide (key a = n))).map val).sum := by
  unfold groupSum
  rw [zip_map_same, filter_map_pair, List.map_map]
  have hcomp : ((fun p : Nat × ℚ => p.2) ∘ (fun k => (key k, val k))) = val := rfl
  rw [hcomp]

theorem groupCnt_zip_ones (key : α → Nat) (l : List α) (n : Nat) :
    groupCnt n ((l.map key).zip (List.replicate (l.map key).length 1)) =
      (l.filter (fun a => decide (key a = n))).length := by
  unfold groupCnt
  rw [zip_replicate_one, List.map_map]
  have hcomp : ((fun k => (k, (1 : Nat))) ∘ key) = (fun a => (key a, (1 : Nat))) := rfl
  rw [hcomp, filter_map_pair, List.map_map]
  have hcomp2 : ((fun p : Nat × Nat => p.2) ∘ (fun a => (key a, (1 : Nat)))) =
      (fun _ => (1 : Nat)) := rfl
  rw [hcomp2, sum_map_one]

theorem groupSum_eg (g : ExtGridRow → ℚ) (ty : List String) (tbl : List ExtGridRow)
    (j : Nat) :
    groupSum j ((egJunctions ty tbl).zip (egVals g ty tbl)) =
      ((egRowsAt ty j tbl).map g).sum := by
  unfold egJunctions egVals egRowsAt
  rw [groupSum_zip_maps, List.filter_filter]
  have hco : (tbl.filter (fun a => decide (a.junction = j) && decide (a.type ∈ ty))) =
      (tbl.filter (fun r => decide (r.type ∈ ty) && decide (r.junction = j))) := by
    apply List.filter_congr
    intro a _
    rw [Bool.and_comm]
  rw [hco]

theorem groupCnt_eg (g : ExtGridRow → ℚ) (ty : List String) (tbl : List ExtGridRow)
    (j : Nat) :
    groupCnt j ((egJunctions ty tbl).zip
        (List.replicate (egVals g ty tbl).length 1)) =
      (egRowsAt ty j tbl).length := by
  unfold egJunctions egVals egRowsAt
  have hlen : ((tbl.filter (fun r => decide (r.type ∈ ty))).map g).length =
      ((tbl.filter (fun r => decide (r.type ∈ ty))).map (·.junction)).length := by
    simp
  rw [hlen, groupCnt_zip_ones, List.filter_filter]
  have hco : (tbl.filter (fun a => decide (a.junction = j) && decide (a.type ∈ ty))) =
      (tbl.filter (fun r => decide (r.type ∈ ty) && decide (r.junction = j))) := by
    apply List.filter_congr
    intro a _
    rw [Bool.and_comm]
  rw [hco]

theorem sideWritesOf_preserve (setVal : NodeRow → ℚ → NodeRow)
    (setFlag : NodeRow → NodeRow) (getOcc : NodeRow → ℚ)
    (setOcc : NodeRow → ℚ → NodeRow) (L : Nat → Option Nat) (ks : List Nat)
    (vs : List ℚ) (g' : NodeRow → β) (h1 : ∀ r v, g' (setVal r v) = g' r)
    (h2 : ∀ r, g' (setFlag r) = g' r) (h3 : ∀ r v, g' (setOcc r v) = g' r)
    (pit : Nat → NodeRow) (m : Nat) :
    g' (sideWritesOf setVal setFlag getOcc setOcc L ks vs pit m) = g' (pit m) :=
  boundarySideWrites_preserve _ _ _ _ g' h1 h2 h3 _ _ _ _ _

/-- What one subtype pass does to node `n` when `j` is the only junction label
(of any row) whose lookup resolves to `n`: nothing if no row of the subtype
references `j`; otherwise the value column receives the group mean, the flag
is stamped, and the occurrence column is incremented by the group size. -/
theorem sideWritesOf_char (setVal : NodeRow → ℚ → NodeRow)
    (setFlag : NodeRow → NodeRow) (getOcc : NodeRow → ℚ)
    (setOcc : NodeRow → ℚ → NodeRow) (L : Nat → Option Nat)
    (g : ExtGridRow → ℚ) (ty : List String) (tbl : List ExtGridRow)
    (pit : Nat → NodeRow) (j n : Nat)
    (hsome : ∀ r ∈ tbl, (L r.junction).isSome)
    (hj : L j = some n)
    (huniq : ∀ r ∈ tbl, L r.junction = some n → r.junction = j) :
    (egRowsAt ty j tbl = [] →
      sideWritesOf setVal setFlag getOcc setOcc L (egJunctions ty tbl)
        (egVals g ty tbl) pit n = pit n) ∧
    (egRowsAt ty j tbl ≠ [] →
      sideWritesOf setVal setFlag getOcc setOcc L (egJunctions ty tbl)
        (egVals g ty tbl) pit n =
        setOcc (setFlag (setVal (pit n)
            (((egRowsAt ty j tbl).map g).sum / ((egRowsAt ty j tbl).length : ℚ))))
          (getOcc (setFlag (setVal (pit n)
            (((egRowsAt ty j tbl).map g).sum / ((egRowsAt ty j tbl).length : ℚ)))) +
            ((egRowsAt ty j tbl).length : ℚ))) := by
  have hmemks : ∀ k ∈ sortedUnique (egJunctions ty tbl), ∃ r, r ∈ tbl ∧
      decide (r.type ∈ ty) = true ∧ r.junction = k := by
    intro k hk
    rw [mem_sortedUnique] at hk
    obtain ⟨r, hr, hrk⟩ := List.mem_map.mp hk
    rw [List.mem_filter] at hr
    exact ⟨r, hr.1, hr.2, hrk⟩
  have hLknown : ∀ k ∈ sortedUnique (egJunctions ty tbl),
      (L k).getD 0 = n → k = j := by
    intro k hk hgd
    obtain ⟨r, hrt, hrty, hrk⟩ := hmemks k hk
    have hks : (L k).isSome := by rw [← hrk]; exact hsome r hrt
    obtain ⟨m, hm⟩ := Option.isSome_iff_exists.mp hks
    have hmn : m = n := by rw [hm] at hgd; simpa using hgd
    subst hmn
    have hrj : r.junction = j := huniq r hrt (by rw [hrk]; exact hm)
    rw [← hrk, hrj]
  constructor
  · intro hempty
    apply boundarySideWrites_apply_none
    intro hmem
    obtain ⟨k, hk, hℓ⟩ := List.mem_map.mp hmem
    have hkj : k = j := hLknown k hk hℓ
    subst hkj
    obtain ⟨r, hrt, hrty, hrk⟩ := hmemks k hk
    have : r ∈ egRowsAt ty k tbl := by
      rw [egRowsAt, List.mem_filter]
      exact ⟨hrt, by simp [hrty, hrk]⟩
    rw [hempty] at this
    simp at this
  · intro hne
    obtain ⟨r0, hr0⟩ := List.exists_mem_of_ne_nil _ hne
    rw [egRowsAt, List.mem_filter] at hr0
    obtain ⟨hr0t, hr0p⟩ := hr0
    rw [Bool.and_eq_true, decide_eq_true_eq, decide_eq_true_eq] at hr0p
    obtain ⟨hr0ty, hr0j⟩ := hr0p
    have hjks : j ∈ sortedUnique (egJunctions ty tbl) := by
      rw [mem_sortedUnique, egJunctions]
      exact List.mem_map.mpr ⟨r0,
        List.mem_filter.mpr ⟨hr0t, by simp [hr0ty]⟩, hr0j⟩
    have huniq' : ∀ k ∈ sortedUnique (egJunctions ty tbl),
        ((L k).getD 0 = n ↔ k = j) := by
      intro k hk
      constructor
      · exact hLknown k hk
      · rintro rfl
        rw [hj]
        rfl
    unfold sideWritesOf
    rw [boundarySideWrites_apply_unique setVal setFlag getOcc setOcc
      (sortedUnique (egJunctions ty tbl)) (fun k => (L k).getD 0)
      (fun k => groupSum k ((egJunctions ty tbl).zip (egVals g ty tbl)))
      (fun k => groupCnt k ((egJunctions ty tbl).zip
        (List.replicate (egVals g ty tbl).length 1)))
      pit n j (nodup_sortedUnique _) hjks huniq']
    rw [groupSum_eg, groupCnt_eg]

/-- Reduction of `ExtGrid.create_pit_node_entries` on a table whose rows are
all in service (so the positional junction indexing is aligned) with every
junction label resolving in the lookup: the pressure pass over the pooled
`p`/`pt` rows followed by the temperature pass over the pooled `t`/`pt`
rows. -/
theorem create_eq_of_allInService (use_numba : Bool) (L : Nat → Option Nat)
    (tbl : List ExtGridRow) (node_pit : Nat → NodeRow)
    (hall : ∀ r ∈ tbl, r.in_service = true)
    (hsome : ∀ r ∈ tbl, (L r.junction).isSome) :
    ExtGrid.create_pit_node_entries use_numba L tbl node_pit =
      some (sideWritesOf (fun r v => { r with tinit := v })
        (fun r => { r with node_type_t := T }) (·.ext_grid_occurence_t)
        (fun r v => { r with ext_grid_occurence_t := v }) L
        (egJunctions ["t", "pt"] tbl) (egVals (·.t_k) ["t", "pt"] tbl)
        (sideWritesOf (fun r v => { r with pinit := v })
          (fun r => { r with node_type := P }) (·.ext_grid_occurence)
          (fun r v => { r with ext_grid_occurence := v }) L
          (egJunctions ["p", "pt"] tbl) (egVals (·.p_bar) ["p", "pt"] tbl)
          node_pit)) := by
  have hfil : tbl.filter (fun r => r.in_service) = tbl :=
    List.filter_eq_self.mpr (by intro r hr; simp [hall r hr])
  have hsomeP : ∀ k ∈ sortedUnique
      ((tbl.filter (fun r => decide (r.type ∈ ["p", "pt"]))).map (·.junction)),
      (L k).isSome := by
    intro k hk
    rw [mem_sortedUnique] at hk
    obtain ⟨r, hr, hrk⟩ := List.mem_map.mp hk
    rw [List.mem_filter] at hr
    rw [← hrk]
    exact hsome r hr.1
  have hsomeT : ∀ k ∈ sortedUnique
      ((tbl.filter (fun r => decide (r.type ∈ ["t", "pt"]))).map (·.junction)),
      (L k).isSome := by
    intro k hk
    rw [mem_sortedUnique] at hk
    obtain ⟨r, hr, hrk⟩ := List.mem_map.mp hk
    rw [List.mem_filter] at hr
    rw [← hrk]
    exact hsome r hr.1
  unfold ExtGrid.create_pit_node_entries
  rw [hfil]
  dsimp only
  rw [gather_wherePositions, gather_wherePositions, gather_wherePositions,
    gather_wherePositions]
  unfold _sum_by_group_cnt
  dsimp only
  rw [lookupList_eq_some_map L _ hsomeP, lookupList_eq_some_map L _ hsomeT]
  rfl

/-- Full characterization of `create_pit_node_entries` at a node `n` that is
the lookup image of exactly the junction label `j`, on an all-in-service
table: each subtype pass either leaves its three columns of `n` unchanged (no
pooled row references `j`) or writes the pooled mean, stamps the flag, and
increments the occurrence counter by the pooled row count. -/
theorem create_char (use_numba : Bool) (L : Nat → Option Nat)
    (tbl : List ExtGridRow) (node_pit : Nat → NodeRow) (j n : Nat)
    (hall : ∀ r ∈ tbl, r.in_service = true)
    (hsome : ∀ r ∈ tbl, (L r.junction).isSome)
    (hj : L j = some n)
    (huniq : ∀ r ∈ tbl, L r.junction = some n → r.junction = j) :
    ∃ pit', ExtGrid.create_pit_node_entries use_numba L tbl node_pit = some pit' ∧
      (egRowsAt ["p", "pt"] j tbl = [] →
        (pit' n).pinit = (node_pit n).pinit ∧
        (pit' n).node_type = (node_pit n).node_type ∧
        (pit' n).ext_grid_occurence = (node_pit n).ext_grid_occurence) ∧
      (egRowsAt ["p", "pt"] j tbl ≠ [] →
        (pit' n).pinit = ((egRowsAt ["p", "pt"] j tbl).map (·.p_bar)).sum /
          ((egRowsAt ["p", "pt"] j tbl).length : ℚ) ∧
        (pit' n).node_type = P ∧
        (pit' n).ext_grid_occurence = (node_pit n).ext_grid_occurence +
          ((egRowsAt ["p", "pt"] j tbl).length : ℚ)) ∧
      (egRowsAt ["t", "pt"] j tbl = [] →
        (pit' n).tinit = (node_pit n).tinit ∧
        (pit' n).node_type_t = (node_pit n).node_type_t ∧
        (pit' n).ext_grid_occurence_t = (node_pit n).ext_grid_occurence_t) ∧
      (egRowsAt ["t", "pt"] j tbl ≠ [] →
        (pit' n).tinit = ((egRowsAt ["t", "pt"] j tbl).map (·.t_k)).sum /
          ((egRowsAt ["t", "pt"] j tbl).length : ℚ) ∧
        (pit' n).node_type_t = T ∧
        (pit' n).ext_grid_occurence_t = (node_pit n).ext_grid_occurence_t +
          ((egRowsAt ["t", "pt"] j tbl).length : ℚ)) := by
  rw [create_eq_of_allInService use_numba L tbl node_pit hall hsome]
  set sideP := sideWritesOf (fun r v => { r with pinit := v })
      (fun r => { r with node_type := P }) (·.ext_grid_occurence)
      (fun r v => { r with ext_grid_occurence := v }) L
      (egJunctions ["p", "pt"] tbl) (egVals (·.p_bar) ["p", "pt"] tbl) node_pit
    with hsidePdef
  set sideT := sideWritesOf (fun r v => { r with tinit := v })
      (fun r => { r with node_type_t := T }) (·.ext_grid_occurence_t)
      (fun r v => { r with ext_grid_occurence_t := v }) L
      (egJunctions ["t", "pt"] tbl) (egVals (·.t_k) ["t", "pt"] tbl) sideP
    with hsideTdef
  have hcharP := sideWritesOf_char (fun r v => { r with pinit := v })
    (fun r => { r with node_type := P }) (·.ext_grid_occurence)
    (fun r v => { r with ext_grid_occurence := v }) L (·.p_bar) ["p", "pt"]
    tbl node_pit j n hsome hj huniq
  have hcharT := sideWritesOf_char (fun r v => { r with tinit := v })
    (fun r => { r with node_type_t := T }) (·.ext_grid_occurence_t)
    (fun r v => { r with ext_grid_occurence_t := v }) L (·.t_k) ["t", "pt"]
    tbl sideP j n hsome hj huniq
  rw [← hsidePdef] at hcharP
  rw [← hsideTdef] at hcharT
  have hT1 : ∀ m, (sideT m).pinit = (sideP m).pinit := fun m => by
    rw [hsideTdef]
    exact sideWritesOf_preserve (fun r v => { r with tinit := v })
      (fun r => { r with node_type_t := T }) (·.ext_grid_occurence_t)
      (fun r v => { r with ext_grid_occurence_t := v }) L
      (egJunctions ["t", "pt"] tbl) (egVals (·.t_k) ["t", "pt"] tbl) (·.pinit)
      (fun r v => rfl) (fun r => rfl) (fun r v => rfl) sideP m
  have hT2 : ∀ m, (sideT m).node_type = (sideP m).node_type := fun m => by
    rw [hsideTdef]
    exact sideWritesOf_preserve (fun r v => { r with tinit := v })
      (fun r => { r with node_type_t := T }) (·.ext_grid_occurence_t)
      (fun r v => { r with ext_grid_occurence_t := v }) L
      (egJunctions ["t", "pt"] tbl) (egVals (·.t_k) ["t", "pt"] tbl) (·.node_type)
      (fun r v => rfl) (fun r => rfl) (fun r v => rfl) sideP m
  have hT3 : ∀ m, (sideT m).ext_grid_occurence = (sideP m).ext_grid_occurence :=
    fun m => by
    rw [hsideTdef]
    exact sideWritesOf_preserve (fun r v => { r with tinit := v })
      (fun r => { r with node_type_t := T }) (·.ext_grid_occurence_t)
      (fun r v => { r with ext_grid_occurence_t := v }) L
      (egJunctions ["t", "pt"] tbl) (egVals (·.t_k) ["t", "pt"] tbl) (·.ext_grid_occurence)
      (fun r v => rfl) (fun r => rfl) (fun r v => rfl) sideP m
  have hP1 : ∀ m, (sideP m).tinit = (node_pit m).tinit := fun m => by
    rw [hsidePdef]
    exact sideWritesOf_preserve (fun r v => { r with pinit := v })
      (fun r => { r with node_type := P }) (·.ext_grid_occurence)
      (fun r v => { r with ext_grid_occurence := v }) L
      (egJunctions ["p", "pt"] tbl) (egVals (·.p_bar) ["p", "pt"] tbl) (·.tinit)
      (fun r v => rfl) (fun r => rfl) (fun r v => rfl) node_pit m
  have hP2 : ∀ m, (sideP m).node_type_t = (node_pit m).node_type_t := fun m => by
    rw [hsidePdef]
    exact sideWritesOf_preserve (fun r v => { r with pinit := v })
      (fun r => { r with node_type := P }) (·.ext_grid_occurence)
      (fun r v => { r with ext_grid_occurence := v }) L
      (egJunctions ["p", "pt"] tbl) (egVals (·.p_bar) ["p", "pt"] tbl) (·.node_type_t)
      (fun r v => rfl) (fun r => rfl) (fun r v => rfl) node_pit m
  have hP3 : ∀ m, (sideP m).ext_grid_occurence_t = (node_pit m).ext_grid_occurence_t :=
    fun m => by
    rw [hsidePdef]
    exact sideWritesOf_preserve (fun r v => { r with pinit := v })
      (fun r => { r with node_type := P }) (·.ext_grid_occurence)
      (fun r v => { r with ext_grid_occurence := v }) L
      (egJunctions ["p", "pt"] tbl) (egVals (·.p_bar) ["p", "pt"] tbl) (·.ext_grid_occurence_t)
      (fun r v => rfl) (fun r => rfl) (fun r v => rfl) node_pit m
  refine ⟨sideT, rfl, ?_, ?_, ?_, ?_⟩
  · intro hem
    have hP := hcharP.1 hem
    refine ⟨?_, ?_, ?_⟩
    · rw [hT1 n, hP]
    · rw [hT2 n, hP]
    · rw [hT3 n, hP]
  · intro hne
    have hP := hcharP.2 hne
    refine ⟨?_, ?_, ?_⟩
    · rw [hT1 n, hP]
    · rw [hT2 n, hP]
    · rw [hT3 n, hP]
  · intro hem
    have hT := hcharT.1 hem
    refine ⟨?_, ?_, ?_⟩
    · rw [hT, hP1 n]
    · rw [hT, hP2 n]
    · rw [hT, hP3 n]
  · intro hne
    have hT := hcharT.2 hne
    refine ⟨?_, ?_, ?_⟩
    · rw [hT]
    · rw [hT]
    · rw [hT]
      dsimp only
      rw [hP3 n]

theorem egRowsAt_of_single_type (ty : List String) (s : String) (j : Nat)
    (tbl : List ExtGridRow) (hs : s ∈ ty)
    (hty : ∀ r ∈ tbl, r.junction = j → r.type = s) :
    egRowsAt ty j tbl = tbl.filter (fun r => decide (r.junction = j)) := by
  unfold egRowsAt
  apply List.filter_congr
  intro r hr
  by_cases hrj : r.junction = j
  · have h := hty r hr hrj
    simp [hrj, h, hs]
  · simp [hrj]

theorem filter_junction_ne_nil {tbl : List ExtGridRow} {j : Nat}
    (hex : ∃ r ∈ tbl, r.junction = j) :
    tbl.filter (fun r => decide (r.junction = j)) ≠ [] := by
  obtain ⟨r0, hr0, hr0j⟩ := hex
  intro hnil
  have hm : r0 ∈ tbl.filter (fun r => decide (r.junction = j)) :=
    List.mem_filter.mpr ⟨hr0, by simp [hr0j]⟩
  rw [hnil] at hm
  simp at hm

theorem length_filter_or (p q c : α → Bool) (l : List α)
    (hdisj : ∀ a ∈ l, ¬(p a = true ∧ q a = true)) :
    (l.filter (fun a => (p a || q a) && c a)).length =
      (l.filter (fun a => p a && c a)).length +
        (l.filter (fun a => q a && c a)).length := by
  induction l with
  | nil => rfl
  | cons a l ih =>
    have hd' := fun b hb => hdisj b (List.mem_cons_of_mem a hb)
    have ha := hdisj a (List.mem_cons_self a l)
    by_cases hp : p a = true <;> by_cases hq : q a = true <;>
      by_cases hc : c a = true <;>
        simp [List.filter_cons, hp, hq, hc, ih hd'] <;> first | omega | exact absurd ⟨hp, hq⟩ ha

/-- The pooled `p`/`pt` group at a junction splits, by disjointness of the
type tags, into the `p` rows and the `pt` rows. -/
theorem egRowsAt_p_pt_split (tbl : List ExtGridRow) (j : Nat) :
    (egRowsAt ["p", "pt"] j tbl).length =
      (tbl.filter (fun r => decide (r.type = "p") && decide (r.junction = j))).length +
        (tbl.filter (fun r => decide (r.type = "pt") && decide (r.junction = j))).length := by
  unfold egRowsAt
  have hco : tbl.filter
      (fun r => decide (r.type ∈ ["p", "pt"]) && decide (r.junction = j)) =
      tbl.filter (fun r =>
        (decide (r.type = "p") || decide (r.type = "pt")) && decide (r.junction = j)) := by
    apply List.filter_congr
    intro r _
    by_cases h1 : r.type = "p"
    · simp [h1]
    · by_cases h2 : r.type = "pt" <;> simp [h1, h2]
  rw [hco, length_filter_or]
  rintro r hr ⟨h1, h2⟩
  rw [decide_eq_true_eq] at h1 h2
  rw [h1] at h2
  exact absurd h2 (by decide)

/-- The pooled `t`/`pt` group at a junction splits into the `t` rows and the
`pt` rows. -/
theorem egRowsAt_t_pt_split (tbl : List ExtGridRow) (j : Nat) :
    (egRowsAt ["t", "pt"] j tbl).length =
      (tbl.filter (fun r => decide (r.type = "t") && decide (r.junction = j))).length +
        (tbl.filter (fun r => decide (r.type = "pt") && decide (r.junction = j))).length := by
  unfold egRowsAt
  have hco : tbl.filter
      (fun r => decide (r.type ∈ ["t", "pt"]) && decide (r.junction = j)) =
      tbl.filter (fun r =>
        (decide (r.type = "t") || decide (r.type = "pt")) && decide (r.junction = j)) := by
    apply List.filter_congr
    intro r _
    by_cases h1 : r.type = "t"
    · simp [h1]
    · by_cases h2 : r.type = "pt" <;> simp [h1, h2]
  rw [hco, length_filter_or]
  rintro r hr ⟨h1, h2⟩
  rw [decide_eq_true_eq] at h1 h2
  rw [h1] at h2
  exact absurd h2 (by decide)

/-- C1 (amended: all configuration rows of the table are in service, so that
the positional junction indexing of the source is aligned): for every set of
N in-service boundary-source rows of the same subtype that are exactly the
rows referencing junction `j` — with `j` the only label resolving to node `n`
— after `create_pit_node_entries` the node's pressure (subtype `p`/`pt`)
resp. temperature (`t`/`pt`) equals the arithmetic mean of the N target
values, the node-type flag is set to the fixed value, and the occurrence
counter equals its prior value plus N. -/
theorem c1_boundary_mean_and_counter (use_numba : Bool) (L : Nat → Option Nat)
    (tbl : List ExtGridRow) (node_pit : Nat → NodeRow) (j n : Nat) (s : String)
    (hall : ∀ r ∈ tbl, r.in_service = true)
    (hsome : ∀ r ∈ tbl, (L r.junction).isSome)
    (hj : L j = some n)
    (huniq : ∀ r ∈ tbl, L r.junction = some n → r.junction = j)
    (hty : ∀ r ∈ tbl, r.junction = j → r.type = s)
    (hex : ∃ r ∈ tbl, r.junction = j) :
    ∃ pit', ExtGrid.create_pit_node_entries use_numba L tbl node_pit = some pit' ∧
      (s = "p" ∨ s = "pt" →
        (pit' n).pinit =
          ((tbl.filter (fun r => decide (r.junction = j))).map (·.p_bar)).sum /
            ((tbl.filter (fun r => decide (r.junction = j))).length : ℚ) ∧
        (pit' n).node_type = P ∧
        (pit' n).ext_grid_occurence = (node_pit n).ext_grid_occurence +
          ((tbl.filter (fun r => decide (r.junction = j))).length : ℚ)) ∧
      (s = "t" ∨ s = "pt" →
        (pit' n).tinit =
          ((tbl.filter (fun r => decide (r.junction = j))).map (·.t_k)).sum /
            ((tbl.filter (fun r => decide (r.junction = j))).length : ℚ) ∧
        (pit' n).node_type_t = T ∧
        (pit' n).ext_grid_occurence_t = (node_pit n).ext_grid_occurence_t +
          ((tbl.filter (fun r => decide (r.junction = j))).length : ℚ)) := by
  obtain ⟨pit', hcr, hpe, hpn, hte, htn⟩ :=
    create_char use_numba L tbl node_pit j n hall hsome hj huniq
  refine ⟨pit', hcr, ?_, ?_⟩
  · intro hs
    have hsin : s ∈ ["p", "pt"] := by rcases hs with rfl | rfl <;> simp
    have heq := egRowsAt_of_single_type ["p", "pt"] s j tbl hsin hty
    have hne : egRowsAt ["p", "pt"] j tbl ≠ [] := by
      rw [heq]
      exact filter_junction_ne_nil hex
    obtain ⟨h1, h2, h3⟩ := hpn hne
    rw [heq] at h1 h3
    exact ⟨h1, h2, h3⟩
  · intro hs
    have hsin : s ∈ ["t", "pt"] := by rcases hs with rfl | rfl <;> simp
    have heq := egRowsAt_of_single_type ["t", "pt"] s j tbl hsin hty
    have hne : egRowsAt ["t", "pt"] j tbl ≠ [] := by
      rw [heq]
      exact filter_junction_ne_nil hex
    obtain ⟨h1, h2, h3⟩ := htn hne
    rw [heq] at h1 h3
    exact ⟨h1, h2, h3⟩

/-- C1 witness: two in-service `p` rows at junction 7 with targets 4 and 6 —
node 7 receives the mean pressure 5, the pressure flag, and an occurrence
count of 0 + 2. -/
theorem c1_boundary_mean_and_counter_witness :
    ∃ pit', ExtGrid.create_pit_node_entries false (fun k => some k)
        [{ junction := 7, p_bar := 4, t_k := 300, in_service := true, type := "p" },
         { junction := 7, p_bar := 6, t_k := 310, in_service := true, type := "p" }]
        (fun _ => { pinit := 0, tinit := 0, pamb := 0, load := 0, node_type := 0,
                    node_type_t := 0, ext_grid_occurence := 0,
                    ext_grid_occurence_t := 0 }) = some pit' ∧
      (pit' 7).pinit = 5 ∧ (pit' 7).node_type = P ∧
      (pit' 7).ext_grid_occurence = 2 := by
  obtain ⟨pit', hcr, hp, ht⟩ := c1_boundary_mean_and_counter false (fun k => some k)
    [{ junction := 7, p_bar := 4, t_k := 300, in_service := true, type := "p" },
     { junction := 7, p_bar := 6, t_k := 310, in_service := true, type := "p" }]
    (fun _ => { pinit := 0, tinit := 0, pamb := 0, load := 0, node_type := 0,
                node_type_t := 0, ext_grid_occurence := 0,
                ext_grid_occurence_t := 0 }) 7 7 "p"
    (by decide) (by decide) rfl (by decide) (by decide)
    ⟨{ junction := 7, p_bar := 4, t_k := 300, in_service := true, type := "p" },
      by decide, rfl⟩
  obtain ⟨h1, h2, h3⟩ := hp (Or.inl rfl)
  refine ⟨pit', hcr, ?_, h2, ?_⟩
  · rw [h1]
    norm_num [List.filter_cons]
  · rw [h3]
    norm_num [List.filter_cons]

/-- C1 counterexample: the claim as stated fails when an out-of-service row
precedes the in-service rows in the table.  Row 0 is out of service with
junction 0; row 1 is the single in-service `p` row with junction 1 and target
pressure 10.  The claim demands node 1 (the referenced node, under the
identity lookup) to receive pressure 10, but the source indexes the
unfiltered junction column with filtered positions, so node 1 keeps its prior
pressure 0. -/
theorem c1_counterexample :
    ¬ ((ExtGrid.create_pit_node_entries false
        (fun k => if k < 2 then some k else none)
        [{ junction := 0, p_bar := 99, t_k := 300, in_service := false, type := "p" },
         { junction := 1, p_bar := 10, t_k := 300, in_service := true, type := "p" }]
        (fun _ => { pinit := 0, tinit := 0, pamb := 0, load := 0, node_type := 0,
                    node_type_t := 0, ext_grid_occurence := 0,
                    ext_grid_occurence_t := 0 })).map
        (fun pit => (pit 1).pinit) = some 10) ∧
    (ExtGrid.create_pit_node_entries false
        (fun k => if k < 2 then some k else none)
        [{ junction := 0, p_bar := 99, t_k := 300, in_service := false, type := "p" },
         { junction := 1, p_bar := 10, t_k := 300, in_service := true, type := "p" }]
        (fun _ => { pinit := 0, tinit := 0, pamb := 0, load := 0, node_type := 0,
                    node_type_t := 0, ext_grid_occurence := 0,
                    ext_grid_occurence_t := 0 })).map
      (fun pit => (pit 1).pinit) = some 0 := by
  constructor <;>
    norm_num [ExtGrid.create_pit_node_entries, boundarySideWrites, scatterAdd,
      wherePositions, gather, _sum_by_group_cnt, sortedUnique, insertSorted,
      groupSum, groupCnt, lookupList, scatterCol, scatterConst,
      Function.update_apply, P, T, List.filter_cons, List.zip_cons_cons]

/-- C9 (amended: all configuration rows of the table are in service): a `pt`
row participates in both aggregations — with `j` the only junction label
resolving to node `n`, the node's pressure is the mean over the *single
pooled* group of all `p` and `pt` rows at `j`, its temperature the mean over
the pooled `t` and `pt` rows, and each occurrence counter grows by the size
of its pooled group, so each `pt` row adds exactly 1 to both counters. -/
theorem c9_pt_pools_both (use_numba : Bool) (L : Nat → Option Nat)
    (tbl : List ExtGridRow) (node_pit : Nat → NodeRow) (j n : Nat)
    (hall : ∀ r ∈ tbl, r.in_service = true)
    (hsome : ∀ r ∈ tbl, (L r.junction).isSome)
    (hj : L j = some n)
    (huniq : ∀ r ∈ tbl, L r.junction = some n → r.junction = j) :
    ∃ pit', ExtGrid.create_pit_node_entries use_numba L tbl node_pit = some pit' ∧
      (egRowsAt ["p", "pt"] j tbl ≠ [] →
        (pit' n).pinit = ((egRowsAt ["p", "pt"] j tbl).map (·.p_bar)).sum /
          ((egRowsAt ["p", "pt"] j tbl).length : ℚ) ∧
        (pit' n).ext_grid_occurence = (node_pit n).ext_grid_occurence +
          (((tbl.filter (fun r => decide (r.type = "p") && decide (r.junction = j))).length : ℚ) +
            ((tbl.filter (fun r => decide (r.type = "pt") && decide (r.junction = j))).length : ℚ))) ∧
      (egRowsAt ["t", "pt"] j tbl ≠ [] →
        (pit' n).tinit = ((egRowsAt ["t", "pt"] j tbl).map (·.t_k)).sum /
          ((egRowsAt ["t", "pt"] j tbl).length : ℚ) ∧
        (pit' n).ext_grid_occurence_t = (node_pit n).ext_grid_occurence_t +
          (((tbl.filter (fun r => decide (r.type = "t") && decide (r.junction = j))).length : ℚ) +
            ((tbl.filter (fun r => decide (r.type = "pt") && decide (r.junction = j))).length : ℚ))) := by
  obtain ⟨pit', hcr, hpe, hpn, hte, htn⟩ :=
    create_char use_numba L tbl node_pit j n hall hsome hj huniq
  refine ⟨pit', hcr, ?_, ?_⟩
  · intro hne
    obtain ⟨h1, h2, h3⟩ := hpn hne
    refine ⟨h1, ?_⟩
    rw [h3]
    have := egRowsAt_p_pt_split tbl j
    congr 1
    rw [this]
    push_cast
    ring
  · intro hne
    obtain ⟨h1, h2, h3⟩ := htn hne
    refine ⟨h1, ?_⟩
    rw [h3]
    have := egRowsAt_t_pt_split tbl j
    congr 1
    rw [this]
    push_cast
    ring

/-- C9 witness: a single in-service `pt` row at junction 3 with `p_bar = 8`
and `t_k = 400` sets both the node's pressure (to 8) and temperature (to
400), and adds exactly 1 to both occurrence counters. -/
theorem c9_pt_pools_both_witness :
    ∃ pit', ExtGrid.create_pit_node_entries false (fun k => some k)
        [{ junction := 3, p_bar := 8, t_k := 400, in_service := true, type := "pt" }]
        (fun _ => { pinit := 0, tinit := 0, pamb := 0, load := 0, node_type := 0,
                    node_type_t := 0, ext_grid_occurence := 0,
                    ext_grid_occurence_t := 0 }) = some pit' ∧
      (pit' 3).pinit = 8 ∧ (pit' 3).ext_grid_occurence = 1 ∧
      (pit' 3).tinit = 400 ∧ (pit' 3).ext_grid_occurence_t = 1 := by
  obtain ⟨pit', hcr, hp, ht⟩ := c9_pt_pools_both false (fun k => some k)
    [{ junction := 3, p_bar := 8, t_k := 400, in_service := true, type := "pt" }]
    (fun _ => { pinit := 0, tinit := 0, pamb := 0, load := 0, node_type := 0,
                node_type_t := 0, ext_grid_occurence := 0,
                ext_grid_occurence_t := 0 }) 3 3
    (by decide) (by decide) rfl (by decide)
  obtain ⟨hp1, hp2⟩ := hp (by decide)
  obtain ⟨ht1, ht2⟩ := ht (by decide)
  refine ⟨pit', hcr, ?_, ?_, ?_, ?_⟩
  · rw [hp1]
    norm_num [egRowsAt, List.filter_cons]
  · rw [hp2]
    norm_num [List.filter_cons]
    all_goals decide
  · rw [ht1]
    norm_num [egRowsAt, List.filter_cons]
  · rw [ht2]
    norm_num [List.filter_cons]
    all_goals decide

/-- C9 counterexample: the claim as stated fails when an out-of-service row
precedes a `pt` row.  Row 0 is out of service with junction 0; row 1 is an
in-service `pt` row with junction 1.  The claim demands that the `pt` row add
1 to both occurrence counters of its node (node 1 under the identity lookup),
but both counters of node 1 stay 0 because the source misindexes the
unfiltered junction column. -/
theorem c9_counterexample :
    ¬ ((ExtGrid.create_pit_node_entries false
        (fun k => if k < 2 then some k else none)
        [{ junction := 0, p_bar := 99, t_k := 300, in_service := false, type := "t" },
         { junction := 1, p_bar := 12, t_k := 350, in_service := true, type := "pt" }]
        (fun _ => { pinit := 0, tinit := 0, pamb := 0, load := 0, node_type := 0,
                    node_type_t := 0, ext_grid_occurence := 0,
                    ext_grid_occurence_t := 0 })).map
        (fun pit => ((pit 1).ext_grid_occurence, (pit 1).ext_grid_occurence_t)) =
        some (1, 1)) ∧
    (ExtGrid.create_pit_node_entries false
        (fun k => if k < 2 then some k else none)
        [{ junction := 0, p_bar := 99, t_k := 300, in_service := false, type := "t" },
         { junction := 1, p_bar := 12, t_k := 350, in_service := true, type := "pt" }]
        (fun _ => { pinit := 0, tinit := 0, pamb := 0, load := 0, node_type := 0,
                    node_type_t := 0, ext_grid_occurence := 0,
                    ext_grid_occurence_t := 0 })).map
      (fun pit => ((pit 1).ext_grid_occurence, (pit 1).ext_grid_occurence_t)) =
      some (0, 0) := by
  constructor <;>
    norm_num [ExtGrid.create_pit_node_entries, boundarySideWrites, scatterAdd,
      wherePositions, gather, _sum_by_group_cnt, sortedUnique, insertSorted,
      groupSum, groupCnt, lookupList, scatterCol, scatterConst,
      Function.update_apply, P, T, List.filter_cons, List.zip_cons_cons]

/-- C4, failing input: an out-of-service boundary-source row does contribute
to the node table.  The table holds row 0 = out of service with junction 0,
row 1 = in service, type `"p"`, `p_bar = 5`, junction 1; the junction lookup
is the identity on labels 0 and 1.  Because `create_pit_node_entries` indexes
the unfiltered junction column with positions computed on the in-service
filtered frame, the in-service row's pressure 5 is written to node 0 — the
node referenced by the *out-of-service* row's junction column — while node 1,
the node the in-service row references, is left untouched. -/
theorem c4_out_of_service_row_contributes :
    (ExtGrid.create_pit_node_entries false
        (fun n => if n < 2 then some n else none)
        [{ junction := 0, p_bar := 99, t_k := 300, in_service := false, type := "p" },
         { junction := 1, p_bar := 5, t_k := 400, in_service := true, type := "p" }]
        (fun _ => { pinit := 0, tinit := 0, pamb := 0, load := 0, node_type := 0,
                    node_type_t := 0, ext_grid_occurence := 0,
                    ext_grid_occurence_t := 0 })).map
      (fun pit => ((pit 0).pinit, (pit 0).node_type, (pit 0).ext_grid_occurence,
                   (pit 1).pinit, (pit 1).node_type, (pit 1).ext_grid_occurence)) =
      some (5, P, 1, 0, 0, 0) := by
  norm_num [ExtGrid.create_pit_node_entries, boundarySideWrites, scatterAdd,
    wherePositions, gather, _sum_by_group_cnt, sortedUnique, insertSorted,
    groupSum, groupCnt, lookupList, scatterCol, scatterConst,
    Function.update_apply, P, T, List.filter_cons, List.zip_cons_cons]

/-! ## ExtGrid result extraction -/

/-- The boolean mask `np.isin(ext_grids.type, ["p", "pt"]) &
ext_grids.in_service` over the full table (`p_grids` in the source). -/
def p_grids_mask (tbl : List ExtGridRow) : List Bool :=
  tbl.map (fun r => decide (r.type ∈ ["p", "pt"]) && r.in_service)

/-- The in-service pressure-type rows of the table in order —
boolean-mask selection `values[p_grids]` over any full-table column equals
the corresponding map over this filtered list. -/
def p_rows (tbl : List ExtGridRow) : List ExtGridRow :=
  tbl.filter (fun r => decide (r.type ∈ ["p", "pt"]) && r.in_service)

/-- `np.unique(eg_nodes)`: the sorted distinct pressure-boundary node
indices (`node_uni`). -/
def node_uni_of (eg_nodes : List Nat) : List Nat := sortedUnique eg_nodes

/-- The `return_counts` output of `np.unique(eg_nodes)`. -/
def counts_of (eg_nodes : List Nat) : List Nat :=
  (sortedUnique eg_nodes).map (fun m => cntN m eg_nodes)

/-- The `return_inverse` output of `np.unique(eg_nodes)`: for each entry its
position in the sorted unique array. -/
def inverse_of (eg_nodes : List Nat) : List Nat :=
  eg_nodes.map (fun m => idxOfN m (sortedUnique eg_nodes))

/-- `np.concatenate([from_nodes, to_nodes, node_uni])`: the from-nodes of the
branches leaving a pressure-boundary node, the to-nodes of the branches
arriving at one, and the nodes themselves. -/
def all_index_nodes_of (branch_pit : List BranchRow) (node_uni : List Nat) :
    List Nat :=
  ((branch_pit.filter (fun b => decide (b.from_node ∈ node_uni))).map (·.from_node)) ++
    ((branch_pit.filter (fun b => decide (b.to_node ∈ node_uni))).map (·.to_node)) ++
    node_uni

/-- `np.concatenate([-mass_flow_from, mass_flow_to, -loads])`. -/
def all_mass_flows_of (branch_pit : List BranchRow) (node_pit : Nat → NodeRow)
    (node_uni : List Nat) : List ℚ :=
  ((branch_pit.filter (fun b => decide (b.from_node ∈ node_uni))).map
      (fun b => -b.load_vec_nodes)) ++
    ((branch_pit.filter (fun b => decide (b.to_node ∈ node_uni))).map
      (·.load_vec_nodes)) ++
    (node_uni.map (fun m => -(node_pit m).load))

/-- `ExtGrid.extract_results`.  An empty table returns immediately; otherwise
the in-service pressure-type rows' junctions are looked up (`eg_nodes`), the
per-node net mass flow `-mass_flow_from + mass_flow_to - load` is grouped
over `all_index_nodes`, divided element-wise by the per-node row counts
(failing, as numpy does, if the two arrays' lengths differ), scaled by
`ExtGrid.sign` and scattered through the boolean mask `p_grids` into the
`mdot_kg_per_s` result column, distributing each node's total equally over
the rows that share it. -/
def ExtGrid.extract_results (use_numba : Bool)
    (junction_idx_lookups : Nat → Option Nat) (tbl : List ExtGridRow)
    (branch_pit : List BranchRow) (node_pit : Nat → NodeRow)
    (res : Nat → ℚ) : Option (Nat → ℚ) :=
  if tbl.length = 0 then some res
  else
    match lookupList junction_idx_lookups ((p_rows tbl).map (·.junction)) with
    | none => none
    | some eg_nodes =>
      let node_uni := node_uni_of eg_nodes
      let counts := counts_of eg_nodes
      let inverse_nodes := inverse_of eg_nodes
      let sbg := _sum_by_group use_numba (all_index_nodes_of branch_pit node_uni)
        (all_mass_flows_of branch_pit node_pit node_uni)
      if sbg.2.length = counts.length then
        some (maskAssign res (p_grids_mask tbl)
          (inverse_nodes.map (fun q => ExtGrid.sign *
            (List.zipWith (fun s c => s / c) sbg.2
              (counts.map (fun (c : Nat) => (c : ℚ)))).getD q 0)))
      else none

/-! ### Lemmas for C3, C6 and C10 -/

theorem cntN_pos {m : Nat} {l : List Nat} (h : m ∈ l) : 1 ≤ cntN m l := by
  induction l with
  | nil => simp at h
  | cons a l ih =>
    rcases List.mem_cons.mp h with rfl | h'
    · unfold cntN
      simp
    · have := ih h'
      unfold cntN
      omega

theorem cntN_map (f : α → Nat) (n : Nat) (l : List α) :
    cntN n (l.map f) = (l.filter (fun a => decide (f a = n))).length := by
  induction l with
  | nil => rfl
  | cons a l ih =>
    by_cases h : f a = n
    · simp [cntN, List.filter_cons, h, ih]
      omega
    · simp [cntN, List.filter_cons, h, ih]

theorem sum_map_neg (f : α → ℚ) (l : List α) :
    (l.map (fun a => -f a)).sum = -(l.map f).sum := by
  induction l with
  | nil => simp
  | cons a l ih => simp [ih]; ring

theorem groupSum_append (n : Nat) (l1 l2 : List (Nat × ℚ)) :
    groupSum n (l1 ++ l2) = groupSum n l1 + groupSum n l2 := by
  unfold groupSum
  rw [List.filter_append, List.map_append, List.sum_append]

theorem groupSum_zip_self (f : Nat → ℚ) (l : List Nat) (n : Nat) :
    groupSum n (l.zip (l.map f)) =
      ((l.filter (fun m => decide (m = n))).map f).sum := by
  induction l with
  | nil => rfl
  | cons a l ih =>
    unfold groupSum at *
    by_cases h : a = n <;> simp [List.zip_cons_cons, List.filter_cons, h, ih]

/-- The keys produced by grouping the concatenated mass-flow contributions
are exactly `node_uni`: the from/to parts only contain members of `node_uni`
(by the `isin` masks) and `node_uni` itself is appended, already sorted and
duplicate-free. -/
theorem sortedUnique_all_index (branch_pit : List BranchRow) (node_pit : Nat → NodeRow)
    (eg : List Nat) :
    sortedUnique (all_index_nodes_of branch_pit (node_uni_of eg)) =
      node_uni_of eg := by
  apply eq_of_pairwise_lt_of_mem_iff (pairwise_sortedUnique _)
    (pairwise_sortedUnique eg)
  intro a
  rw [mem_sortedUnique]
  unfold all_index_nodes_of
  constructor
  · intro ha
    rcases List.mem_append.mp ha with h | h
    · rcases List.mem_append.mp h with h1 | h1
      · obtain ⟨b, hb, hba⟩ := List.mem_map.mp h1
        rw [List.mem_filter] at hb
        have := of_decide_eq_true hb.2
        rw [← hba]
        exact this
      · obtain ⟨b, hb, hba⟩ := List.mem_map.mp h1
        rw [List.mem_filter] at hb
        have := of_decide_eq_true hb.2
        rw [← hba]
        exact this
    · exact h
  · intro ha
    exact List.mem_append.mpr (Or.inr ha)

theorem sum_by_group_keys_eq (use_numba : Bool) (branch_pit : List BranchRow)
    (node_pit : Nat → NodeRow) (eg : List Nat) :
    (_sum_by_group use_numba (all_index_nodes_of branch_pit (node_uni_of eg))
        (all_mass_flows_of branch_pit node_pit (node_uni_of eg))).1 =
      node_uni_of eg := by
  unfold _sum_by_group
  exact sortedUnique_all_index branch_pit node_pit eg

theorem sum_by_group_sums_len (use_numba : Bool) (branch_pit : List BranchRow)
    (node_pit : Nat → NodeRow) (eg : List Nat) :
    (_sum_by_group use_numba (all_index_nodes_of branch_pit (node_uni_of eg))
        (all_mass_flows_of branch_pit node_pit (node_uni_of eg))).2.length =
      (node_uni_of eg).length := by
  unfold _sum_by_group
  dsimp only
  rw [List.length_map]
  exact congrArg List.length (sortedUnique_all_index branch_pit node_pit eg)

theorem counts_of_length (eg : List Nat) :
    (counts_of eg).length = (node_uni_of eg).length := by
  unfold counts_of node_uni_of
  rw [List.length_map]

/-- The grouped net mass flow at a node `n ∈ node_uni`: incoming minus
outgoing branch flow minus the node's local load. -/
theorem groupSum_all_index (branch_pit : List BranchRow) (node_pit : Nat → NodeRow)
    (eg : List Nat) (n : Nat) (hn : n ∈ node_uni_of eg) :
    groupSum n ((all_index_nodes_of branch_pit (node_uni_of eg)).zip
        (all_mass_flows_of branch_pit node_pit (node_uni_of eg))) =
      ((branch_pit.filter (fun b => decide (b.to_node = n))).map
          (·.load_vec_nodes)).sum -
        ((branch_pit.filter (fun b => decide (b.from_node = n))).map
          (·.load_vec_nodes)).sum -
        (node_pit n).load := by
  unfold all_index_nodes_of all_mass_flows_of
  rw [List.zip_append (by simp), List.zip_append (by simp)]
  rw [groupSum_append, groupSum_append]
  have hfrom : groupSum n
      (((branch_pit.filter (fun b => decide (b.from_node ∈ node_uni_of eg))).map
          (·.from_node)).zip
        ((branch_pit.filter (fun b => decide (b.from_node ∈ node_uni_of eg))).map
          (fun b => -b.load_vec_nodes))) =
      -((branch_pit.filter (fun b => decide (b.from_node = n))).map
        (·.load_vec_nodes)).sum := by
    rw [groupSum_zip_maps]
    rw [List.filter_filter]
    have hco : branch_pit.filter
        (fun b => decide (b.from_node = n) && decide (b.from_node ∈ node_uni_of eg)) =
        branch_pit.filter (fun b => decide (b.from_node = n)) := by
      apply List.filter_congr
      intro b _
      by_cases h : b.from_node = n
      · rw [h]
        simp [hn]
      · simp [h]
    rw [hco, sum_map_neg]
  have hto : groupSum n
      (((branch_pit.filter (fun b => decide (b.to_node ∈ node_uni_of eg))).map
          (·.to_node)).zip
        ((branch_pit.filter (fun b => decide (b.to_node ∈ node_uni_of eg))).map
          (·.load_vec_nodes))) =
      ((branch_pit.filter (fun b => decide (b.to_node = n))).map
        (·.load_vec_nodes)).sum := by
    rw [groupSum_zip_maps]
    rw [List.filter_filter]
    have hco : branch_pit.filter
        (fun b => decide (b.to_node = n) && decide (b.to_node ∈ node_uni_of eg)) =
        branch_pit.filter (fun b => decide (b.to_node = n)) := by
      apply List.filter_congr
      intro b _
      by_cases h : b.to_node = n
      · rw [h]
        simp [hn]
      · simp [h]
    rw [hco]
  have hloads : groupSum n ((node_uni_of eg).zip
      ((node_uni_of eg).map (fun m => -(node_pit m).load))) =
      -(node_pit n).load := by
    rw [groupSum_zip_self]
    have hsingle : (node_uni_of eg).filter (fun m => decide (m = n)) = [n] := by
      apply filter_eq_singleton_of_unique _ (nodup_sortedUnique eg) hn
      intro k hk
      simp
    rw [hsingle]
    simp
  rw [hfrom, hto, hloads]
  ring

theorem count_true_map (pred : α → Bool) (l : List α) :
    (l.map pred).count true = (l.filter pred).length := by
  induction l with
  | nil => rfl
  | cons a l ih =>
    by_cases h : pred a = true <;>
      simp [List.count_cons, List.filter_cons, h, ih]

theorem getD_filter_map_at (pred : α → Bool) (g : α → ℚ) :
    ∀ (tbl : List α) (i : Nat) (r : α), tbl.get? i = some r → pred r = true →
      ∀ d, ((tbl.filter pred).map g).getD ((tbl.take i).filter pred).length d = g r := by
  intro tbl
  induction tbl with
  | nil =>
    intro i r h
    simp at h
  | cons a tl ih =>
    intro i r h hr d
    cases i with
    | zero =>
      rw [List.get?] at h
      rw [Option.some.injEq] at h
      subst h
      simp [List.filter_cons_of_pos hr]
    | succ i =>
      rw [List.get?] at h
      by_cases ha : pred a = true
      · rw [List.take_succ_cons, List.filter_cons_of_pos ha,
          List.filter_cons_of_pos ha, List.map_cons, List.length_cons,
          List.getD_cons_succ]
        exact ih i r h hr d
      · rw [List.take_succ_cons, List.filter_cons_of_neg ha,
          List.filter_cons_of_neg ha]
        exact ih i r h hr d

/-- A numpy boolean-mask assignment `res[tbl.map pred] = (tbl.filter
pred).map g` writes `g r` into the position of each row `r` satisfying the
mask. -/
theorem maskAssign_apply (pred : α → Bool) (g : α → ℚ) (tbl : List α)
    (res : Nat → ℚ) (i : Nat) (r : α) (hi : tbl.get? i = some r)
    (hr : pred r = true) :
    maskAssign res (tbl.map pred) ((tbl.filter pred).map g) i = g r := by
  unfold maskAssign
  have hmask : (tbl.map pred).getD i false = true := by
    rw [List.getD_eq_getD_get?, get?_map_opt, hi]
    simpa using hr
  rw [hmask, if_pos rfl, ← List.map_take, count_true_map]
  exact getD_filter_map_at pred g tbl i r hi hr _

theorem getD_map_idxOfN (F : Nat → ℚ) {m : Nat} {l : List Nat} (h : m ∈ l)
    (d : ℚ) : (l.map F).getD (idxOfN m l) d = F m := by
  induction l with
  | nil => simp at h
  | cons a l ih =>
    by_cases ham : a = m
    · subst ham
      simp [idxOfN]
    · rcases List.mem_cons.mp h with rfl | h'
      · exact absurd rfl ham
      · rw [List.map_cons, idxOfN, if_neg ham, List.getD_cons_succ]
        exact ih h'

/-- C6: with zero in-service boundary-source rows,
`create_pit_node_entries` returns the node table unchanged — in particular
both occurrence counters — and does not fail, and `extract_results` writes no
result value and does not fail (both return `some` of their input). -/
theorem c6_zero_in_service_noop (use_numba : Bool) (L : Nat → Option Nat)
    (tbl : List ExtGridRow) (branch_pit : List BranchRow)
    (node_pit : Nat → NodeRow) (res : Nat → ℚ)
    (h : ∀ r ∈ tbl, r.in_service = false) :
    ExtGrid.create_pit_node_entries use_numba L tbl node_pit = some node_pit ∧
    ExtGrid.extract_results use_numba L tbl branch_pit node_pit res = some res := by
  constructor
  · have hfil : tbl.filter (fun r => r.in_service) = [] :=
      List.filter_eq_nil_iff.mpr (fun r hr => by simp [h r hr])
    unfold ExtGrid.create_pit_node_entries
    rw [hfil]
    rfl
  · by_cases hlen : tbl.length = 0
    · unfold ExtGrid.extract_results
      rw [if_pos hlen]
    · have hpr : p_rows tbl = [] :=
        List.filter_eq_nil_iff.mpr (fun r hr => by simp [h r hr])
      have hf1 : branch_pit.filter
          (fun b => decide (b.from_node ∈ node_uni_of ([] : List Nat))) = [] :=
        List.filter_eq_nil_iff.mpr (fun b hb => by simp [node_uni_of, sortedUnique])
      have hf2 : branch_pit.filter
          (fun b => decide (b.to_node ∈ node_uni_of ([] : List Nat))) = [] :=
        List.filter_eq_nil_iff.mpr (fun b hb => by simp [node_uni_of, sortedUnique])
      unfold ExtGrid.extract_results
      rw [if_neg hlen, hpr]
      rw [show lookupList L (List.map (fun x => x.junction) ([] : List ExtGridRow)) =
        some [] from rfl]
      dsimp only
      unfold all_index_nodes_of all_mass_flows_of
      rw [hf1, hf2]
      show some (maskAssign res (p_grids_mask tbl) []) = some res
      congr 1
      funext i
      unfold maskAssign
      split
      · rfl
      · rfl

/-- C6 witness: a table holding a single out-of-service row. -/
theorem c6_zero_in_service_noop_witness :
    ExtGrid.create_pit_node_entries false (fun k => some k)
        [{ junction := 4, p_bar := 9, t_k := 300, in_service := false, type := "pt" }]
        (fun _ => { pinit := 0, tinit := 0, pamb := 0, load := 0, node_type := 0,
                    node_type_t := 0, ext_grid_occurence := 0,
                    ext_grid_occurence_t := 0 }) =
      some (fun _ => { pinit := 0, tinit := 0, pamb := 0, load := 0, node_type := 0,
                       node_type_t := 0, ext_grid_occurence := 0,
                       ext_grid_occurence_t := 0 }) ∧
    ExtGrid.extract_results false (fun k => some k)
        [{ junction := 4, p_bar := 9, t_k := 300, in_service := false, type := "pt" }]
        [] (fun _ => { pinit := 0, tinit := 0, pamb := 0, load := 0, node_type := 0,
                       node_type_t := 0, ext_grid_occurence := 0,
                       ext_grid_occurence_t := 0 }) (fun _ => 0) =
      some (fun _ => 0) :=
  c6_zero_in_service_noop false (fun k => some k) _ [] _ (fun _ => 0) (by decide)

/-- C10: with at least one in-service pressure-type row whose junction
lookups succeed, the key array of the per-node mass-flow grouping equals
`node_uni` element for element, the grouped sums and the per-node counts both
have `node_uni`'s length, every count is at least 1, and `extract_results`
succeeds — the element-wise division is over equal-length arrays and never
divides by zero. -/
theorem c10_grouping_aligned (use_numba : Bool) (L : Nat → Option Nat)
    (tbl : List ExtGridRow) (branch_pit : List BranchRow)
    (node_pit : Nat → NodeRow) (res : Nat → ℚ) (eg_nodes : List Nat)
    (hne : eg_nodes ≠ [])
    (heg : lookupList L ((p_rows tbl).map (·.junction)) = some eg_nodes) :
    (_sum_by_group use_numba (all_index_nodes_of branch_pit (node_uni_of eg_nodes))
        (all_mass_flows_of branch_pit node_pit (node_uni_of eg_nodes))).1 =
      node_uni_of eg_nodes ∧
    (_sum_by_group use_numba (all_index_nodes_of branch_pit (node_uni_of eg_nodes))
        (all_mass_flows_of branch_pit node_pit (node_uni_of eg_nodes))).2.length =
      (node_uni_of eg_nodes).length ∧
    (counts_of eg_nodes).length = (node_uni_of eg_nodes).length ∧
    (∀ c ∈ counts_of eg_nodes, 1 ≤ c) ∧
    ∃ res', ExtGrid.extract_results use_numba L tbl branch_pit node_pit res =
      some res' := by
  refine ⟨sum_by_group_keys_eq use_numba branch_pit node_pit eg_nodes,
    sum_by_group_sums_len use_numba branch_pit node_pit eg_nodes,
    counts_of_length eg_nodes, ?_, ?_⟩
  · intro c hc
    unfold counts_of at hc
    obtain ⟨m, hm, hcm⟩ := List.mem_map.mp hc
    rw [mem_sortedUnique] at hm
    rw [← hcm]
    exact cntN_pos hm
  · have hprne : p_rows tbl ≠ [] := by
      intro hnil
      rw [hnil] at heg
      rw [show lookupList L (([] : List ExtGridRow).map (·.junction)) = some []
        from rfl] at heg
      rw [Option.some.injEq] at heg
      exact hne heg.symm
    have hlen0 : ¬ tbl.length = 0 := by
      intro h0
      rw [List.length_eq_zero] at h0
      rw [h0] at hprne
      exact hprne rfl
    have hcond : (_sum_by_group use_numba
        (all_index_nodes_of branch_pit (node_uni_of eg_nodes))
        (all_mass_flows_of branch_pit node_pit (node_uni_of eg_nodes))).2.length =
        (counts_of eg_nodes).length := by
      rw [sum_by_group_sums_len use_numba branch_pit node_pit eg_nodes,
        counts_of_length eg_nodes]
    unfold ExtGrid.extract_results
    rw [if_neg hlen0, heg]
    dsimp only
    rw [if_pos hcond]
    exact ⟨_, rfl⟩

/-- C10 witness: one in-service `p` row at junction 0, no branches. -/
theorem c10_grouping_aligned_witness :
    (_sum_by_group false (all_index_nodes_of [] (node_uni_of [0]))
        (all_mass_flows_of [] (fun _ =>
          { pinit := 0, tinit := 0, pamb := 0, load := 0, node_type := 0,
            node_type_t := 0, ext_grid_occurence := 0, ext_grid_occurence_t := 0 })
          (node_uni_of [0]))).1 = node_uni_of [0] ∧
    (_sum_by_group false (all_index_nodes_of [] (node_uni_of [0]))
        (all_mass_flows_of [] (fun _ =>
          { pinit := 0, tinit := 0, pamb := 0, load := 0, node_type := 0,
            node_type_t := 0, ext_grid_occurence := 0, ext_grid_occurence_t := 0 })
          (node_uni_of [0]))).2.length = (node_uni_of [0]).length ∧
    (counts_of [0]).length = (node_uni_of [0]).length ∧
    (∀ c ∈ counts_of [0], 1 ≤ c) ∧
    ∃ res', ExtGrid.extract_results false (fun k => some k)
        [{ junction := 0, p_bar := 5, t_k := 300, in_service := true, type := "p" }]
        [] (fun _ => { pinit := 0, tinit := 0, pamb := 0, load := 0, node_type := 0,
                       node_type_t := 0, ext_grid_occurence := 0,
                       ext_grid_occurence_t := 0 }) (fun _ => 0) = some res' :=
  c10_grouping_aligned false (fun k => some k)
    [{ junction := 0, p_bar := 5, t_k := 300, in_service := true, type := "p" }]
    [] _ (fun _ => 0) [0] (by decide) rfl

theorem inverse_of_map (G : Nat → ℚ) (g : α → Nat) (l : List α) :
    (inverse_of (l.map g)).map G =
      l.map (fun a => G (idxOfN (g a) (sortedUnique (l.map g)))) := by
  unfold inverse_of
  rw [List.map_map, List.map_map]
  rfl

theorem maskAssign_inverse_apply (pred : α → Bool) (g : α → Nat) (G : Nat → ℚ)
    (tbl : List α) (res : Nat → ℚ) (i : Nat) (r : α)
    (hi : tbl.get? i = some r) (hr : pred r = true) :
    maskAssign res (tbl.map pred)
      ((inverse_of ((tbl.filter pred).map g)).map G) i =
      G (idxOfN (g r) (sortedUnique ((tbl.filter pred).map g))) := by
  rw [inverse_of_map]
  exact maskAssign_apply pred
    (fun a => G (idxOfN (g a) (sortedUnique ((tbl.filter pred).map g))))
    tbl res i r hi hr

theorem shares_getD (use_numba : Bool) (branch_pit : List BranchRow)
    (node_pit : Nat → NodeRow) (eg : List Nat) (n : Nat)
    (hn : n ∈ sortedUnique eg) :
    (List.zipWith (fun s c => s / c)
      (_sum_by_group use_numba (all_index_nodes_of branch_pit (node_uni_of eg))
        (all_mass_flows_of branch_pit node_pit (node_uni_of eg))).2
      ((counts_of eg).map (fun (c : Nat) => (c : ℚ)))).getD
        (idxOfN n (sortedUnique eg)) 0 =
      groupSum n ((all_index_nodes_of branch_pit (node_uni_of eg)).zip
        (all_mass_flows_of branch_pit node_pit (node_uni_of eg))) /
        (cntN n eg : ℚ) := by
  unfold _sum_by_group counts_of
  dsimp only
  rw [show sortedUnique (all_index_nodes_of branch_pit (node_uni_of eg)) =
    sortedUnique eg from sortedUnique_all_index branch_pit node_pit eg]
  rw [List.map_map, zipWith_map_same]
  rw [getD_map_idxOfN _ hn]
  rfl

/-- C3: for every in-service pressure-type boundary-source row (at table
position `i`, referencing node `n` through the junction lookup),
`extract_results` reports a mass flow equal to `1/k` times (the mass flow
arriving on branches whose to-node is `n`, minus the mass flow leaving on
branches whose from-node is `n`, minus the node's local load), where `k` is
the number of in-service pressure-type rows sharing node `n` — so all rows at
one node report equal shares, with positive sign meaning net injection into
the network. -/
theorem c3_equal_share_mass_flow (use_numba : Bool) (L : Nat → Option Nat)
    (tbl : List ExtGridRow) (branch_pit : List BranchRow)
    (node_pit : Nat → NodeRow) (res : Nat → ℚ) (i : Nat) (r : ExtGridRow) (n : Nat)
    (hi : tbl.get? i = some r) (hty : r.type ∈ ["p", "pt"])
    (hsv : r.in_service = true)
    (hsome : ∀ r' ∈ p_rows tbl, (L r'.junction).isSome)
    (hn : L r.junction = some n) :
    ∃ res', ExtGrid.extract_results use_numba L tbl branch_pit node_pit res =
        some res' ∧
      res' i = (((branch_pit.filter (fun b => decide (b.to_node = n))).map
            (·.load_vec_nodes)).sum -
          ((branch_pit.filter (fun b => decide (b.from_node = n))).map
            (·.load_vec_nodes)).sum -
          (node_pit n).load) /
        (((p_rows tbl).filter
          (fun r' => decide (L r'.junction = some n))).length : ℚ) := by
  have hrp : r ∈ p_rows tbl := by
    unfold p_rows
    exact List.mem_filter.mpr ⟨List.get?_mem hi, by simp [hty, hsv]⟩
  have hsome' : ∀ k ∈ (p_rows tbl).map (·.junction), (L k).isSome := by
    intro k hk
    obtain ⟨r', hr', hrk⟩ := List.mem_map.mp hk
    rw [← hrk]
    exact hsome r' hr'
  have heg : lookupList L ((p_rows tbl).map (·.junction)) =
      some ((p_rows tbl).map (fun r' => (L r'.junction).getD 0)) := by
    rw [lookupList_eq_some_map L _ hsome', List.map_map]
    rfl
  have hnin : n ∈ (p_rows tbl).map (fun r' => (L r'.junction).getD 0) := by
    refine List.mem_map.mpr ⟨r, hrp, ?_⟩
    rw [hn]
    rfl
  have hnsu : n ∈ sortedUnique ((p_rows tbl).map (fun r' => (L r'.junction).getD 0)) := by
    rw [mem_sortedUnique]
    exact hnin
  have hlen0 : ¬ tbl.length = 0 := by
    intro h0
    rw [List.length_eq_zero] at h0
    rw [h0] at hi
    simp at hi
  have hcond : (_sum_by_group use_numba
      (all_index_nodes_of branch_pit
        (node_uni_of ((p_rows tbl).map (fun r' => (L r'.junction).getD 0))))
      (all_mass_flows_of branch_pit node_pit
        (node_uni_of ((p_rows tbl).map (fun r' => (L r'.junction).getD 0))))).2.length =
      (counts_of ((p_rows tbl).map (fun r' => (L r'.junction).getD 0))).length := by
    rw [sum_by_group_sums_len, counts_of_length]
  have hext : ExtGrid.extract_results use_numba L tbl branch_pit node_pit res =
      some (maskAssign res (p_grids_mask tbl)
        ((inverse_of ((p_rows tbl).map (fun r' => (L r'.junction).getD 0))).map
          (fun q => ExtGrid.sign *
            (List.zipWith (fun s c => s / c)
              (_sum_by_group use_numba
                (all_index_nodes_of branch_pit
                  (node_uni_of ((p_rows tbl).map (fun r' => (L r'.junction).getD 0))))
                (all_mass_flows_of branch_pit node_pit
                  (node_uni_of ((p_rows tbl).map (fun r' => (L r'.junction).getD 0))))).2
              ((counts_of ((p_rows tbl).map (fun r' => (L r'.junction).getD 0))).map
                (fun (c : Nat) => (c : ℚ)))).getD q 0))) := by
    unfold ExtGrid.extract_results
    rw [if_neg hlen0, heg]
    dsimp only
    rw [if_pos hcond]
  refine ⟨_, hext, ?_⟩
  have hrpred : (fun r' : ExtGridRow =>
      decide (r'.type ∈ ["p", "pt"]) && r'.in_service) r = true := by
    simp [hty, hsv]
  unfold p_grids_mask p_rows
  unfold p_rows at hsome hrp
  rw [maskAssign_inverse_apply
    (fun r' : ExtGridRow => decide (r'.type ∈ ["p", "pt"]) && r'.in_service)
    (fun r' => (L r'.junction).getD 0) _ tbl res i r hi hrpred]
  have hgr : (L r.junction).getD 0 = n := by
    rw [hn]
    rfl
  rw [hgr]
  unfold p_rows at hnsu
  rw [shares_getD use_numba branch_pit node_pit _ n hnsu]
  rw [groupSum_all_index branch_pit node_pit _ n (by
    unfold node_uni_of
    exact hnsu)]
  have hk : cntN n ((tbl.filter (fun r' =>
      decide (r'.type ∈ ["p", "pt"]) && r'.in_service)).map
        (fun r' => (L r'.junction).getD 0)) =
      ((tbl.filter (fun r' => decide (r'.type ∈ ["p", "pt"]) && r'.in_service)).filter
        (fun r' => decide (L r'.junction = some n))).length := by
    rw [cntN_map]
    apply congrArg List.length
    apply List.filter_congr
    intro r' hr'
    have hs := hsome r' hr'
    obtain ⟨m, hm⟩ := Option.isSome_iff_exists.mp hs
    rw [hm]
    refine decide_eq_decide.mpr ?_
    simp
  rw [hk]
  rw [show ExtGrid.sign = (1 : ℚ) from rfl, one_mul]

/-- C3 witness: one in-service `p` row at junction 0 (= node 0 under the
identity lookup), one branch arriving at node 0 carrying mass flow 3, and a
local load of 1 — the row reports (3 − 0 − 1)/1 = 2. -/
theorem c3_equal_share_mass_flow_witness :
    ∃ res', ExtGrid.extract_results false (fun k => some k)
        [{ junction := 0, p_bar := 5, t_k := 300, in_service := true, type := "p" }]
        [{ from_node := 1, to_node := 0, vinit := 0, d := 0, area := 0,
           loss_coefficient := 0, pl := 0, pressure_ratio := 0,
           load_vec_nodes := 3 }]
        (fun _ => { pinit := 0, tinit := 0, pamb := 0, load := 1, node_type := 0,
                    node_type_t := 0, ext_grid_occurence := 0,
                    ext_grid_occurence_t := 0 }) (fun _ => 0) = some res' ∧
      res' 0 = 2 := by
  obtain ⟨res', hext, hval⟩ := c3_equal_share_mass_flow false (fun k => some k)
    [{ junction := 0, p_bar := 5, t_k := 300, in_service := true, type := "p" }]
    [{ from_node := 1, to_node := 0, vinit := 0, d := 0, area := 0,
       loss_coefficient := 0, pl := 0, pressure_ratio := 0, load_vec_nodes := 3 }]
    (fun _ => { pinit := 0, tinit := 0, pamb := 0, load := 1, node_type := 0,
                node_type_t := 0, ext_grid_occurence := 0,
                ext_grid_occurence_t := 0 }) (fun _ => 0) 0
    { junction := 0, p_bar := 5, t_k := 300, in_service := true, type := "p" } 0
    rfl (by decide) rfl (by decide) rfl
  refine ⟨res', hext, ?_⟩
  rw [hval]
  norm_num [List.filter_cons, p_rows]

end Pandapipes
